import Mathlib

/-!
Verification development for the doctown chunk/cluster/merge pipeline and its
archive format.  Each section embeds one source module as executable Lean
definitions (translated from the Python source under `src/`), followed by the
theorems that settle the specification claims about that module.

Modelling conventions, used consistently below:
* Python `str` is `String`; all slicing/splitting is done on `String.data`
  (Python strings index by character, as does `List Char`).
* Python `int` is `Int` (or `Nat` where the source value is a count that is
  never negative); Python `float` is modelled as `Rat`, i.e. exact real
  arithmetic (float rounding is outside the scope of every claim treated
  here, and JSON round-trips of Python floats are value-preserving).
* Python dicts that come from parsed YAML/JSON are association lists in
  declaration order (CPython dicts preserve insertion order).
* `None`-able values are `Option`; raised exceptions are `Except` errors.
* External capabilities (Ollama embedding / structured generation, sklearn
  clustering) are opaque function parameters, exactly as the spec directs.
-/

set_option linter.unusedVariables false

deriving instance DecidableEq for Except

namespace Doctown

/-! ## Python string primitives

Character-list based models of the Python `str` operations the sources use.
They are deliberately defined on `String.data` so that every definition in
this file evaluates inside the kernel. -/

/-- Python `s[n:]` (character-based slice). -/
def pyDrop (s : String) (n : Nat) : String := ⟨s.data.drop n⟩

/-- Python `s[:n]` (character-based slice). -/
def pyTake (s : String) (n : Nat) : String := ⟨s.data.take n⟩

/-- Helper for Python `text.split('\n')`, on character lists. -/
def splitLinesChars : List Char → List (List Char)
  | [] => [[]]
  | c :: cs =>
    match splitLinesChars cs with
    | [] => [[c]]
    | g :: gs => if c = '\n' then [] :: g :: gs else (c :: g) :: gs

/-- Python `text.split('\n')`: always at least one element, keeps empty
pieces, `"".split('\n') == ['']`. -/
def pySplitLines (s : String) : List String := (splitLinesChars s.data).map String.mk

/-- Python `str.startswith(pre)`. -/
def pyStartsWith (s pre : String) : Bool := pre.data.isPrefixOf s.data

/-! ## Tokenizer / chunker (`src/chunking.py`)

`count_tokens` and `split_text_by_tokens` translated line by line.  The
Python loop state (`current_chunk`, `current_tokens`, `start_line`,
`chunks`) becomes the record `SState`, the `for line_idx, line in
enumerate(lines)` loop becomes the structural recursion `splitGo`, and the
backward overlap walk over `reversed(current_chunk)` becomes `takeOverlap`
applied to the reversed buffer. -/

/-- `count_tokens` (chunking.py line 27): `len(text) // 4`. -/
def count_tokens (text : String) : Nat := text.length / 4

/-- Token total of a list of lines (each line counted by `count_tokens`,
exactly how the Python loop accumulates `current_tokens`). -/
def tokenSum (ls : List String) : Nat := (ls.map count_tokens).sum

/-- One `(chunk_text, start_line, end_line)` triple produced by
`split_text_by_tokens` (0-indexed inclusive line range). -/
structure PChunk where
  text : String
  s : Nat
  e : Nat

deriving DecidableEq

/-- The backward overlap walk (chunking.py lines 63-70), expressed on the
reversed buffer: walk the lines of the just-closed chunk from the end,
greedily keeping lines while the running total stays within `overlap`, and
stop (dropping the rest) at the first line that would exceed it.  The
Python `overlap_lines.insert(0, prev_line)` means the final value is the
reverse of what this function returns. -/
def takeOverlap (overlap : Nat) : Nat → List String → List String
  | _, [] => []
  | acc, l :: ls =>
    if overlap < acc + count_tokens l then []
    else l :: takeOverlap overlap (acc + count_tokens l) ls

/-- Loop state of `split_text_by_tokens`: `cur` = `current_chunk`,
`tok` = `current_tokens`, `start` = `start_line`, `out` = `chunks`. -/
structure SState where
  cur : List String
  tok : Nat
  start : Nat
  out : List PChunk

deriving DecidableEq

/-- One iteration of the `for line_idx, line in enumerate(lines)` body
(chunking.py lines 54-77). -/
def splitStep (chunk_size overlap : Nat) (idx : Nat) (line : String) (st : SState) : SState :=
  let lt := count_tokens line
  if chunk_size < st.tok + lt ∧ st.cur ≠ [] then
    let ovl := (takeOverlap overlap 0 st.cur.reverse).reverse
    { cur := ovl ++ [line]
      tok := tokenSum ovl + lt
      start := idx - ovl.length
      out := st.out ++ [⟨String.intercalate "\n" st.cur, st.start, idx - 1⟩] }
  else
    { cur := st.cur ++ [line], tok := st.tok + lt, start := st.start, out := st.out }

/-- The enumerate loop of `split_text_by_tokens`. -/
def splitGo (chunk_size overlap : Nat) : Nat → List String → SState → SState
  | _, [], st => st
  | idx, line :: rest, st =>
    splitGo chunk_size overlap (idx + 1) rest (splitStep chunk_size overlap idx line st)

/-- `split_text_by_tokens` (chunking.py lines 30-84).  Returns the list of
`(chunk_text, start_line, end_line)` triples, 0-indexed as in the source
(the `Chunker` converts to 1-indexed on `Chunk` construction). -/
def split_text_by_tokens (text : String) (chunk_size : Nat := 500) (overlap : Nat := 50) :
    List PChunk :=
  let lines := pySplitLines text
  let st := splitGo chunk_size overlap 0 lines ⟨[], 0, 0, []⟩
  if st.cur ≠ [] then
    st.out ++ [⟨String.intercalate "\n" st.cur, st.start, lines.length - 1⟩]
  else st.out

/-- `lines[s..e]` (inclusive 0-indexed line range), the list of source lines
a chunk is built from. -/
def SliceOf (lines : List String) (s e : Nat) : List String :=
  (lines.drop s).take (e + 1 - s)

/-- Intrinsic well-formedness of one emitted chunk: a real line range inside
the file whose text is the verbatim `'\n'.join` of those lines. -/
def NodeP (lines : List String) (c : PChunk) : Prop :=
  c.s ≤ c.e ∧ c.e < lines.length ∧
    c.text = String.intercalate "\n" (SliceOf lines c.s c.e)

/-- Relation between a closed chunk `c` and the start line `nxt` of whatever
follows it (the next chunk): the shared region `lines[nxt..c.e]` is a whole
suffix of `c`'s lines, its token total fits the overlap budget, and the
budget is tight (either the whole chunk was reused, or including one more
line would exceed it). -/
def LinkP (lines : List String) (overlap : Nat) (c : PChunk) (nxt : Nat) : Prop :=
  c.s ≤ nxt ∧ nxt ≤ c.e + 1 ∧
    SliceOf lines nxt c.e <:+ SliceOf lines c.s c.e ∧
    tokenSum (SliceOf lines nxt c.e) ≤ overlap ∧
    (nxt = c.s ∨ overlap < tokenSum (SliceOf lines (nxt - 1) c.e))

/-- Chain of emitted chunks: every chunk well formed, consecutive chunks
linked by the overlap relation, and end lines monotone. -/
def ChainP (lines : List String) (overlap : Nat) : List PChunk → Prop
  | [] => True
  | [c] => NodeP lines c
  | c :: c2 :: rest =>
    NodeP lines c ∧ LinkP lines overlap c c2.s ∧ c.e ≤ c2.e ∧
      ChainP lines overlap (c2 :: rest)

/-- Loop invariant of `splitGo` after processing `idx` of the lines. -/
structure SInv (lines : List String) (overlap idx : Nat) (st : SState) : Prop where
  hidx : idx ≤ lines.length
  hstart : st.start ≤ idx
  hcur : st.cur = (lines.take idx).drop st.start
  htok : st.tok = tokenSum st.cur
  hchain : ChainP lines overlap st.out
  hhead : ∀ c, st.out.head? = some c → c.s = 0
  hempty : st.out = [] → st.start = 0
  hlink : ∀ h : st.out ≠ [], LinkP lines overlap (st.out.getLast h) st.start
  hlaste : ∀ h : st.out ≠ [], (st.out.getLast h).e < idx
  hne : idx ≠ 0 → st.cur ≠ []

/-! ## JSON / parsed-YAML values

Plain data values as parsed by `json.loads` / `yaml.safe_load` and produced
by Pydantic `model_dump`.  Python floats are modelled as exact rationals
(see the header note). -/

inductive Json where
  | null
  | bool (b : Bool)
  | int (n : Int)
  | float (q : Rat)
  | str (s : String)
  | arr (xs : List Json)
  | obj (kvs : List (String × Json))

/-- Python dict lookup `d[k]` / `d.get(k)` on an association list (keys are
unique in dicts that come from parsed YAML/JSON). -/
def pyLookup (k : String) : List (String × Json) → Option Json
  | [] => none
  | (k2, v) :: rest => if k2 = k then some v else pyLookup k rest

/-! Decimal rendering of numbers, used wherever Python interpolates an int
into an f-string.  Defined with explicit fuel so it evaluates in the
kernel. -/

def natDigitsAux : Nat → Nat → List Nat
  | 0, n => [n]
  | fuel + 1, n => if n < 10 then [n] else natDigitsAux fuel (n / 10) ++ [n % 10]

/-- Decimal digits of `n`, most significant first (`0` gives `[0]`). -/
def natDigits (n : Nat) : List Nat := natDigitsAux n n

def digitChar (d : Nat) : Char := Char.ofNat (48 + d)

/-- Python `str(n)` for a non-negative integer. -/
def natRepr (n : Nat) : String := ⟨(natDigits n).map digitChar⟩

/-- Python `str(i)` for an arbitrary integer. -/
def intRepr (i : Int) : String :=
  if i < 0 then "-" ++ natRepr i.natAbs else natRepr i.toNat

/-- Rendering of a Python float.  Exact decimal formatting of floats is
abstracted: integral values print as `n.0` and other rationals as a
fraction.  No claim below depends on the concrete float format. -/
def ratRepr (q : Rat) : String :=
  if q.den = 1 then intRepr q.num ++ ".0" else intRepr q.num ++ "/" ++ natRepr q.den

mutual

/-- Python `repr()` of a parsed-JSON value (what `f"...{schema}..."` prints
for a dict).  String escaping is simplified to bare single quotes; only the
shape and injectivity on the data the claims vary matter. -/
def pyRepr : Json → String
  | .null => "None"
  | .bool b => if b then "True" else "False"
  | .int n => intRepr n
  | .float q => ratRepr q
  | .str s => "'" ++ s ++ "'"
  | .arr xs => "[" ++ pyReprList xs ++ "]"
  | .obj kvs => "\x7b" ++ pyReprFields kvs ++ "\x7d"

def pyReprList : List Json → String
  | [] => ""
  | [x] => pyRepr x
  | x :: y :: rest => pyRepr x ++ ", " ++ pyReprList (y :: rest)

def pyReprFields : List (String × Json) → String
  | [] => ""
  | [(k, v)] => "'" ++ k ++ "': " ++ pyRepr v
  | (k, v) :: y :: rest => "'" ++ k ++ "': " ++ pyRepr v ++ ", " ++ pyReprFields (y :: rest)

end

/-- Python `str()` of a parsed-JSON value (f-string interpolation). -/
def pyStr : Json → String
  | .str s => s
  | j => pyRepr j

/-! ## Schema engine (`src/intent/schema_builder.py`)

`infer_type` / `build_model` compile a declarative schema dict into a type
descriptor.  The dynamically created Pydantic model is represented by the
closed descriptor `PyType`; Pydantic validation (`model_validate`) and
serialization (`model_dump`) are defined against it below.  The fuel
argument of the validator is only a termination device: `tdepth t` is
always enough fuel, and the wrapper `model_validate` supplies it. -/

inductive PyType where
  | strT
  | intT
  | floatT
  | boolT
  | anyT
  | noneT
  | listT (elem : Option PyType)
  | dictT (val : PyType)
  | modelT (fields : List (String × Bool × PyType))

/-- Python `key.endswith('?')`. -/
def endsWithQ (s : String) : Bool := s.data.getLast? = some '?'

/-- Python `key.rstrip('?')`: strips all trailing question marks. -/
def rstripQ (s : String) : String := ⟨(s.data.reverse.dropWhile (· = '?')).reverse⟩

/-- Python `value.lower()` (ASCII case folding, which is all the schema
primitive names use). -/
def pyToLower (s : String) : String :=
  ⟨s.data.map (fun c => if 'A' ≤ c ∧ c ≤ 'Z' then Char.ofNat (c.toNat + 32) else c)⟩

/-- Python `"*" in value` for a schema dict. -/
def hasStar : List (String × Json) → Bool
  | [] => false
  | (k, _) :: rest => k = "*" || hasStar rest

mutual

/-- `infer_type` (schema_builder.py lines 12-57): lists denote typed lists
(empty list: untyped list), dicts with a `"*"` key denote flexible string
maps, other dicts are nested schemas compiled through `build_model`, known
primitive names map to their types, and any other string defaults to `str`.
The Python fallback `type(value)` for literal values maps numbers/bools to
their own types and `None` to `NoneType`. -/
def infer_type : Json → PyType
  | .arr [] => .listT none
  | .arr (v :: _) => .listT (some (infer_type v))
  | .obj kvs => if hasStar kvs then .dictT (inferStar kvs) else .modelT (buildFields kvs)
  | .str s =>
    if pyToLower s = "str" then .strT
    else if pyToLower s = "int" then .intT
    else if pyToLower s = "float" then .floatT
    else if pyToLower s = "bool" then .boolT
    else if pyToLower s = "any" then .anyT
    else .strT
  | .int _ => .intT
  | .float _ => .floatT
  | .bool _ => .boolT
  | .null => .noneT

/-- Lookup of `value["*"]` inside `infer_type` (only reached when `hasStar`
holds, so the `[]` case is dead code). -/
def inferStar : List (String × Json) → PyType
  | [] => .noneT
  | (k, v) :: rest => if k = "*" then infer_type v else inferStar rest

/-- The field loop of `build_model` (schema_builder.py lines 85-105): a
trailing `?` marks the field optional (nullable, defaults to None) and is
stripped from the stored name; all other fields are required. -/
def buildFields : List (String × Json) → List (String × Bool × PyType)
  | [] => []
  | (k, v) :: rest =>
    (if endsWithQ k then rstripQ k else k, endsWithQ k, infer_type v) :: buildFields rest

end

/-- `build_model` (schema_builder.py lines 60-107).  The generated model
name plays no role and is dropped. -/
def build_model (fields : List (String × Json)) : PyType := .modelT (buildFields fields)

/-- `validate_schema` (schema_builder.py lines 110-135): `True` when the
schema is a non-empty dict (in the model, `build_model` itself never
raises; `create_model` failures on exotic field names are outside every
claim's scope), and a raised `ValueError` otherwise. -/
def validate_schema : Json → Bool
  | .obj [] => false
  | .obj _ => true
  | _ => false

mutual

def tdepth : PyType → Nat
  | .listT none => 1
  | .listT (some t) => 1 + tdepth t
  | .dictT t => 1 + tdepth t
  | .modelT fields => 1 + tdepthFields fields
  | _ => 1

def tdepthFields : List (String × Bool × PyType) → Nat
  | [] => 0
  | (_, _, t) :: rest => max (tdepth t) (tdepthFields rest)

end

/-- Pydantic validation of a parsed JSON value against a compiled model,
with explicit fuel (any fuel at least `tdepth t` gives the true result):
strings/ints/bools must match exactly, floats also accept ints, `Any`
accepts everything, typed lists check every element, `"*"`-maps check every
value, and an object must supply every required field with a valid value
while optional fields may be absent or null; unknown extra keys are
ignored, as Pydantic does by default. -/
def validateB : Nat → PyType → Json → Bool
  | 0, _, _ => false
  | fuel + 1, t, j =>
    match t, j with
    | .strT, .str _ => true
    | .strT, _ => false
    | .intT, .int _ => true
    | .intT, _ => false
    | .floatT, .float _ => true
    | .floatT, .int _ => true
    | .floatT, _ => false
    | .boolT, .bool _ => true
    | .boolT, _ => false
    | .anyT, _ => true
    | .noneT, .null => true
    | .noneT, _ => false
    | .listT none, .arr _ => true
    | .listT (some t2), .arr xs => xs.all (fun x => validateB fuel t2 x)
    | .listT _, _ => false
    | .dictT t2, .obj kvs => kvs.all (fun kv => validateB fuel t2 kv.2)
    | .dictT _, _ => false
    | .modelT fields, .obj kvs =>
      fields.all (fun f =>
        match pyLookup f.1 kvs with
        | none => f.2.1
        | some v =>
          match f.2.1, v with
          | true, .null => true
          | _, _ => validateB fuel f.2.2 v)
    | .modelT _, _ => false

/-- `Model.model_validate_json` on an already-parsed value. -/
def model_validate (t : PyType) (j : Json) : Bool := validateB (tdepth t) t j

/-- Pydantic `model_dump()` of a validated value: fields in model order,
optional missing fields become null, unknown keys are dropped, nested
models/lists/maps dumped recursively. -/
def dumpVal : Nat → PyType → Json → Json
  | 0, _, v => v
  | fuel + 1, t, v =>
    match t, v with
    | .modelT fields, .obj kvs =>
      .obj (fields.map (fun f =>
        (f.1, match pyLookup f.1 kvs with
              | none => Json.null
              | some w => dumpVal fuel f.2.2 w)))
    | .listT (some t2), .arr xs => .arr (xs.map (dumpVal fuel t2))
    | .dictT t2, .obj kvs => .obj (kvs.map (fun kv => (kv.1, dumpVal fuel t2 kv.2)))
    | _, _ => v

/-- `Model.model_validate_json(raw).model_dump()` as used by the
orchestrator: validation failure is a Pydantic `ValidationError` (`none`),
success returns the dumped plain value. -/
def validateDump (t : PyType) (j : Json) : Option Json :=
  if model_validate t j then some (dumpVal (tdepth t) t j) else none

/-! ## Core data models (`src/models.py`)

`Chunk`, `Cluster`, `DocpackManifest`, `Docpack` with the exact field lists
of the Pydantic models.  `created_at` is a `datetime` in the source; it is
modelled by its serialized ISO string (Python datetime ↔ ISO string is a
bijection, and no claim inspects the timestamp's structure). -/

structure Chunk where
  chunk_id : Int
  file_path : String
  start_line : Int
  end_line : Int
  tokens : Int
  text : String
  embedding : List Rat
  cluster_id : Option Int

deriving DecidableEq

structure Cluster where
  cluster_id : Int
  chunk_ids : List Int
  centroid : Option (List Rat)
  summary : Option Json

structure DocpackManifest where
  created_at : String
  doctown_version : String
  source_type : String
  source_identifier : String
  intent_name : String
  intent_description : String
  file_count : Int
  chunk_count : Int
  cluster_count : Int
  total_tokens : Int
  embedding_dim : Int
  includes_raw_files : Bool

deriving DecidableEq

structure Docpack where
  manifest : DocpackManifest
  intent_spec : Json
  chunks : List Chunk
  clusters : List Cluster
  project_summary : Json
  raw_files : Option (List (String × String))

/-! ## Intent specification (`src/intent/spec.py`) -/

structure IntentSpec where
  name : String
  description : String
  project_schema : Option (List (String × Json))
  cluster_schema : Option (List (String × Json))
  chunk_schema : Option (List (String × Json))
  max_chunks_per_cluster : Nat
  allow_cross_file_inference : Bool
  allow_global_summary : Bool

/-- `IntentSpec.has_cluster_schema` (spec.py lines 87-89). -/
def IntentSpec.has_cluster_schema (i : IntentSpec) : Bool := i.cluster_schema.isSome

/-- `IntentSpec.has_project_schema` (spec.py lines 91-93). -/
def IntentSpec.has_project_schema (i : IntentSpec) : Bool := i.project_schema.isSome

def schemaToJson : Option (List (String × Json)) → Json
  | none => .null
  | some kvs => .obj kvs

/-- `IntentSpec.to_dict` (spec.py lines 83-85): `model_dump(mode='json')`,
fields in declaration order. -/
def IntentSpec.to_dict (i : IntentSpec) : Json :=
  .obj [("name", .str i.name), ("description", .str i.description),
    ("project_schema", schemaToJson i.project_schema),
    ("cluster_schema", schemaToJson i.cluster_schema),
    ("chunk_schema", schemaToJson i.chunk_schema),
    ("max_chunks_per_cluster", .int i.max_chunks_per_cluster),
    ("allow_cross_file_inference", .bool i.allow_cross_file_inference),
    ("allow_global_summary", .bool i.allow_global_summary)]

/-! ## Cluster engine (`src/clustering.py`)

The sklearn estimators are the spec's black-box numeric-clustering
capability: opaque functions from the embedding matrix to one label per
row, bundled in `SkLearn`. -/

/-- `compute_centroid` (clustering.py lines 13-28): `np.mean(arr, axis=0)`,
the coordinate-wise mean, `[]` for an empty embedding list.  (`np.array`
requires the member embeddings to be rectangular; the `getD` padding is
never exercised on such input.) -/
def compute_centroid (embeddings : List (List Rat)) : List Rat :=
  match embeddings with
  | [] => []
  | e0 :: _ =>
    (List.range e0.length).map (fun j =>
      (embeddings.map (fun v => v.getD j 0)).sum / (embeddings.length : Rat))

structure ClusterEngine where
  num_clusters : Nat
  method : String
  random_state : Int

/-- Black-box clustering capability: `KMeans(...).fit_predict` and
`AgglomerativeClustering(...).fit_predict`, each returning one integer
label per input row. -/
structure SkLearn where
  kmeansFit : (n_clusters : Nat) → (random_state : Int) → (n_init : Nat) →
    List (List Rat) → List Int
  hierFit : (n_clusters : Nat) → (metric linkage : String) → List (List Rat) → List Int

inductive ClusterErr where
  | valueError (msg : String)

deriving DecidableEq

/-- Estimator dispatch of `cluster_chunks` (clustering.py lines 73-90):
kmeans and hierarchical run the corresponding black box, any other method
name raises `ValueError` naming the method. -/
def rawLabels (sk : SkLearn) (eng : ClusterEngine) (embeddings : List (List Rat))
    (effective_clusters : Nat) : Except ClusterErr (List Int) :=
  if eng.method = "kmeans" then
    .ok (sk.kmeansFit effective_clusters eng.random_state 10 embeddings)
  else if eng.method = "hierarchical" then
    .ok (sk.hierFit effective_clusters "euclidean" "ward" embeddings)
  else
    .error (.valueError ("Unknown clustering method: " ++ eng.method))

/-- The in-place `chunk.cluster_id = int(label)` loop (clustering.py lines
92-94), functionally: `zip(chunks, labels)` truncates at the shorter list
exactly like Python `zip`. -/
def assignLabels (chunks : List Chunk) (labels : List Int) : List Chunk :=
  List.zipWith (fun c l => { c with cluster_id := some l }) chunks labels

/-- The cluster-building loop (clustering.py lines 96-118). -/
def buildClusters (chunks2 : List Chunk) (effective_clusters : Nat) : List Cluster :=
  (List.range effective_clusters).map (fun cid =>
    let members := chunks2.filter (fun c => c.cluster_id = some (Int.ofNat cid))
    { cluster_id := Int.ofNat cid
      chunk_ids := members.map (·.chunk_id)
      centroid := some (compute_centroid (members.map (·.embedding)))
      summary := none })

/-- `ClusterEngine.cluster_chunks` (clustering.py lines 52-120).  The
mutation of the input chunks is represented by returning the updated chunk
list next to the built clusters; an empty input returns immediately with
no mutation and no estimator call. -/
def cluster_chunks (sk : SkLearn) (eng : ClusterEngine) (chunks : List Chunk) :
    Except ClusterErr (List Chunk × List Cluster) :=
  match chunks with
  | [] => .ok ([], [])
  | _ :: _ =>
    let effective_clusters := min eng.num_clusters chunks.length
    match rawLabels sk eng (chunks.map (·.embedding)) effective_clusters with
    | .error e => .error e
    | .ok labels =>
      let chunks2 := assignLabels chunks labels
      .ok (chunks2, buildClusters chunks2 effective_clusters)

/-- A labeler that puts every row in cluster 0 — a legitimate black-box
outcome as far as the claims' stated hypotheses go. -/
def skConst : SkLearn :=
  ⟨fun _ _ _ embs => embs.map (fun _ => 0), fun _ _ _ embs => embs.map (fun _ => 0)⟩

/-! ## Prompts (`src/summarizer/prompts.py`)

The prompt templates, transcribed as string concatenation in place of the
f-string interpolation holes.  Formatting of interpolated numbers uses
`intRepr`/`natRepr` (Python `str(int)`), of interpolated dicts `pyStr`
(Python `str(dict)`). -/

def SYSTEM_STRUCTURED_OUTPUT : String :=
  "\nYou are a code/document analyzer that extracts factual information into structured JSON.\n\nCRITICAL RULES:\n- Extract REAL identifiers, names, and text from the input - never invent or hallucinate\n- Output ONLY valid JSON matching the schema - no explanation, markdown, or commentary\n- Use empty lists [] or null for fields with insufficient evidence\n- NEVER echo task instructions back as field values\n- File paths are strong hints for module/package names\n"

/-- `make_structured_cluster_prompt` (prompts.py lines 162-217).  The
orchestrator is the only caller and always leaves `file_paths` as `None`
(orchestrator.py line 61), so the paths section is the empty string. -/
def make_structured_cluster_prompt (cluster_id : Int) (chunks : List String)
    (schema : Json) : String :=
  let formatted := String.intercalate "\n\n"
    (chunks.enum.map (fun p => "── Chunk " ++ natRepr (p.1 + 1) ++ " ──\n" ++ p.2))
  "Extract information from this code/documentation cluster.\n\n" ++ "" ++
    "═══ CONTENT (" ++ natRepr chunks.length ++ " chunks) ═══\n\n" ++ formatted ++
    "\n\n═══ END CONTENT ═══\n\nEXTRACTION TASK:\nAnalyze the content above and fill the JSON schema. Follow these rules:\n\n1. EXTRACT REAL DATA: Copy actual function names, class names, imports, and identifiers verbatim from the code\n2. USE FILE PATHS: Infer module/package names from paths (e.g., \"src/auth/login.py\" → module is \"auth.login\")\n3. FIND DEPENDENCIES: List real imports you see (e.g., \"import pandas\", \"from fastapi import\", \"use tokio::\")\n4. SUMMARIZE FROM TEXT: For description fields, paraphrase what the code does based on comments, docstrings, or logic\n5. EMPTY IS OK: Use [] for lists and null for optional fields if no evidence exists\n6. DO NOT ECHO INSTRUCTIONS: Never put task instructions or schema field names as values\n\nSCHEMA TO FILL:\n" ++
    pyStr schema ++ "\n\nRespond with valid JSON only."

/-- `make_structured_project_prompt` (prompts.py lines 220-267): the
deterministic-merge prompt, built from the combined cluster-summary text,
the metrics text and the representative samples, plus the schema. -/
def make_structured_project_prompt (cluster_summaries metrics representative_samples : String)
    (schema : Json) : String :=
  "Synthesize a project-level summary from these cluster analyses.\n\n═══ CLUSTER SUMMARIES ═══\n" ++
    cluster_summaries ++
    "\n\n═══ METRICS ═══\n" ++ metrics ++
    "\n\n═══ SAMPLE CODE/TEXT ═══\n" ++ representative_samples ++
    "\n\n═══ END INPUT ═══\n\nSYNTHESIS TASK:\nCreate a unified project summary by combining insights from all clusters above.\n\nRULES:\n1. AGGREGATE: Combine module names, functions, and patterns found across clusters\n2. IDENTIFY THEMES: What is this project/codebase about? What problem does it solve?\n3. LIST REAL ARTIFACTS: Only include module names, entry points, and tech stack items that appear in the cluster data\n4. USE METRICS: Reference actual file counts, token counts from the metrics section\n5. EMPTY IS OK: Use [] for lists and null for optional fields if no clear evidence exists\n6. BE SPECIFIC: \"Rust CLI tool for document analysis\" is better than \"A software project\"\n\nSCHEMA TO FILL:\n" ++
    pyStr schema ++ "\n\nRespond with valid JSON only."

/-! ## Synthesis orchestrator (`src/intent/orchestrator.py`)

The structured-generation capability (`call_llm` in
summarizer/summarize.py, plus the JSON parse of its textual reply) is the
opaque parameter `GenCap`: a fixed deterministic function of the system
prompt, the user prompt, the model identifier and the compiled schema
descriptor (the JSON-schema rendering `model_json_schema()` is itself a
fixed function of the descriptor and is absorbed into the oracle).
Validation of the reply against the compiled model is `validateDump`. -/

def GenCap : Type := String → String → String → PyType → Json

inductive OrchErr where
  | valueError (msg : String)
  | validationError

deriving DecidableEq

/-- Python truthiness of a parsed-JSON value (`if cluster.summary:`). -/
def jsonTruthy : Json → Bool
  | .null => false
  | .bool b => b
  | .int n => n ≠ 0
  | .float q => q ≠ 0
  | .str s => s ≠ ""
  | .arr xs => !xs.isEmpty
  | .obj kvs => !kvs.isEmpty

def summaryFieldsText : List (String × Json) → String
  | [] => ""
  | (k, v) :: rest => "  " ++ k ++ ": " ++ pyStr v ++ "\n" ++ summaryFieldsText rest

/-- Cluster-summaries block of `summarize_project` (orchestrator.py lines
109-117): clusters with a truthy (non-empty) summary dict contribute a
`Cluster {id}:` block with one indented line per summary field. -/
def clusterSummariesText (clusters : List Cluster) : String :=
  String.intercalate "\n\n" (clusters.filterMap (fun cl =>
    match cl.summary with
    | some (.obj kvs) =>
      if jsonTruthy (.obj kvs) then
        some ("Cluster " ++ intRepr cl.cluster_id ++ ":\n" ++ summaryFieldsText kvs)
      else none
    | _ => none))

/-- Metrics block of `summarize_project` (orchestrator.py lines 120-127). -/
def metricsText (m : DocpackManifest) : String :=
  "\nDataset Metrics:\n- Files: " ++ intRepr m.file_count ++
    "\n- Chunks: " ++ intRepr m.chunk_count ++
    "\n- Clusters: " ++ intRepr m.cluster_count ++
    "\n- Total Tokens: " ++ intRepr m.total_tokens ++
    "\n- Embedding Dimension: " ++ intRepr m.embedding_dim ++ "\n"

/-- Representative-samples block of `summarize_project` (orchestrator.py
lines 129-140): for each cluster with members, the first member chunk (by
stored order, looked up among all chunks by id) contributes its file path
and the first 500 characters of its text. -/
def samplesText (clusters : List Cluster) (chunks : List Chunk) : String :=
  String.intercalate "\n\n---\n\n" (clusters.filterMap (fun cl =>
    match cl.chunk_ids with
    | [] => none
    | cid0 :: _ =>
      match chunks.find? (fun c => c.chunk_id = cid0) with
      | none => none
      | some c =>
        some ("[Cluster " ++ intRepr cl.cluster_id ++ ", File: " ++ c.file_path ++ "]\n" ++
          pyTake c.text 500 ++ "...")))

/-- `summarize_cluster` (orchestrator.py lines 22-76). -/
def summarize_cluster (gen : GenCap) (cluster : Cluster) (chunks : List Chunk)
    (intent : IntentSpec) (model : String := "phi4-mini-reasoning") : Except OrchErr Json :=
  match intent.cluster_schema with
  | none => .error (.valueError "Intent spec must have cluster_schema")
  | some sch =>
    let cluster_chunks := chunks.filter (fun c => c.chunk_id ∈ cluster.chunk_ids)
    let cluster_chunks :=
      if cluster_chunks.length > intent.max_chunks_per_cluster then
        cluster_chunks.take intent.max_chunks_per_cluster
      else cluster_chunks
    let ClusterModel := build_model sch
    let prompt := make_structured_cluster_prompt cluster.cluster_id
      (cluster_chunks.map (·.text)) (.obj sch)
    match validateDump ClusterModel (gen SYSTEM_STRUCTURED_OUTPUT prompt model ClusterModel) with
    | some v => .ok v
    | none => .error .validationError

/-- `summarize_project` (orchestrator.py lines 79-159): build the three
text blocks, combine them with the compiled project schema into the merge
prompt, call the generation capability and validate/dump the reply. -/
def summarize_project (gen : GenCap) (clusters : List Cluster) (chunks : List Chunk)
    (intent : IntentSpec) (manifest : DocpackManifest)
    (model : String := "phi4-mini-reasoning") : Except OrchErr Json :=
  match intent.project_schema with
  | none => .error (.valueError "Intent spec must have project_schema")
  | some sch =>
    let ProjectModel := build_model sch
    let prompt := make_structured_project_prompt (clusterSummariesText clusters)
      (metricsText manifest) (samplesText clusters chunks) (.obj sch)
    match validateDump ProjectModel
        (gen SYSTEM_STRUCTURED_OUTPUT prompt model ProjectModel) with
    | some v => .ok v
    | none => .error .validationError

/-- Cluster-summarization phase of `apply_intent` (orchestrator.py lines
184-192): with a cluster schema, each cluster's `summary` is set (in
place in the source; here by returning the updated list); without one the
clusters pass through untouched. -/
def clustersPhase (gen : GenCap) (intent : IntentSpec) (chunks : List Chunk)
    (clusters : List Cluster) (model : String) : Except OrchErr (List Cluster) :=
  if intent.has_cluster_schema then
    clusters.mapM (fun cl =>
      (summarize_cluster gen cl chunks intent model).map
        (fun s => { cl with summary := some s }))
  else
    .ok clusters

/-- `apply_intent` (orchestrator.py lines 162-215). -/
def apply_intent (gen : GenCap) (intent : IntentSpec) (chunks : List Chunk)
    (clusters : List Cluster) (manifest : DocpackManifest)
    (summarization_model : String := "phi4-mini-reasoning") : Except OrchErr Docpack := do
  let clusters2 ← clustersPhase gen intent chunks clusters summarization_model
  let project_summary ←
    if intent.has_project_schema && intent.allow_global_summary then
      summarize_project gen clusters2 chunks intent manifest summarization_model
    else
      pure (Json.obj [])
  pure { manifest := manifest, intent_spec := intent.to_dict, chunks := chunks,
         clusters := clusters2, project_summary := project_summary, raw_files := none }

/-- A generation capability whose reply encodes the length of the user
prompt it received — a legitimate fixed deterministic function of its
prompt and schema, used to separate runs whose prompts differ. -/
def genLen : GenCap := fun _ user _ _ => .obj [("n", .int (Int.ofNat user.length))]

/-- A generation capability with a constant (invalid for most schemas)
reply. -/
def genTrivial : GenCap := fun _ _ _ _ => Json.obj []

def cexIntent : IntentSpec :=
  ⟨"i", "d", some [("n", Json.str "int")], none, none, 10, false, true⟩

def cexManifest : DocpackManifest :=
  ⟨"t", "0.1.0", "zip", "s", "i", "d", 1, 1, 1, 0, 0, false⟩

def cexClusters : List Cluster := [⟨0, [0], none, some (.obj [("t", Json.str "x")])⟩]

/-! ## Archive codec (`src/docpack.py`)

A `.docpack` is a ZIP archive.  The archive is modelled as its entry list
in insertion (write) order: each entry is a name paired with its payload.
Structured payloads are kept at the value level (`Json`): the source
serializes them with `json.dumps` / `yaml.dump` and parses them back with
`json.loads` / `yaml.safe_load`, which are mutually inverse on the values
that occur here, so the byte-level codec is not modelled.  Python's
`sorted` on `str` compares Unicode code points lexicographically, which is
`lexLtB` below (Lean `Char < Char` is code-point order). -/

/-- Python string `<` : lexicographic comparison of code-point lists. -/
def lexLtB : List Char → List Char → Bool
  | [], [] => false
  | [], _ :: _ => true
  | _ :: _, [] => false
  | a :: as, b :: bs => if a < b then true else if b < a then false else lexLtB as bs

def strLtB (a b : String) : Bool := lexLtB a.data b.data

/-- `a ≤ b` in Python string order, the sort key of `sorted(...)`. -/
def StrLe (a b : String) : Prop := strLtB b a = false

instance : DecidableRel StrLe := fun a b =>
  inferInstanceAs (Decidable (strLtB b a = false))

/-- Python `f"\x7bn:0wd\x7d"` digit padding for a non-negative value: the
decimal digits, left-padded with `'0'` to width `w` (a wider number is kept
in full). -/
def zfill (w : Nat) (l : List Char) : List Char := List.replicate (w - l.length) '0' ++ l

def zpad (w n : Nat) : String := ⟨zfill w ((natDigits n).map digitChar)⟩

/-- Python `f"\x7bi:0wd\x7d"` for an arbitrary integer: the minus sign counts
toward the width. -/
def zpadInt (w : Nat) (i : Int) : String :=
  if i < 0 then "-" ++ zpad (w - 1) i.natAbs else zpad w i.toNat

/-- `f"chunks/chunk_\x7bchunk.chunk_id:04d\x7d.json"` (docpack.py line 59). -/
def chunkRecName (i : Int) : String := "chunks/chunk_" ++ zpadInt 4 i ++ ".json"

/-- `f"clusters/cluster_\x7bcluster.cluster_id:02d\x7d.json"` (docpack.py line 64). -/
def clusterRecName (i : Int) : String := "clusters/cluster_" ++ zpadInt 2 i ++ ".json"

/-- Reference fixed-width digit expansion: the `w` trailing decimal digits,
most significant first. -/
def digitsW : Nat → Nat → List Nat
  | 0, _ => []
  | w + 1, n => digitsW w (n / 10) ++ [n % 10]

def valW (l : List Nat) : Nat := l.foldl (fun a d => 10 * a + d) 0

/-! ### ZIP entries and the JSON codecs of the individual records

A ZIP payload is either a JSON document, a YAML document, or raw bytes
(`zf.writestr` of a `bytes` value).  `json.dumps`/`json.loads` and
`yaml.dump`/`yaml.safe_load` are mutually inverse on the values written
here, so structured payloads are modelled at the value level.  Raw bytes
are modelled as `String` (an opaque byte sequence).  The `*FromJson`
parsers are Pydantic `Model(**data)` construction, modelled on the JSON
shapes `model_dump(mode='json')` emits: missing optional fields take the
field default (`created_at`'s `default_factory=datetime.utcnow` is the
read-time clock; it is modelled as a fixed placeholder because the writer
always emits the field and no claim inspects it). -/

inductive ZEntry where
  | json (j : Json)
  | yaml (j : Json)
  | bytes (b : String)

inductive DpErr where
  | keyError (name : String)
  | parseError

deriving DecidableEq

def optIntJson : Option Int → Json
  | none => .null
  | some i => .int i

/-- `chunk.model_dump(mode='json')` (docpack.py line 60). -/
def chunkToJson (c : Chunk) : Json :=
  .obj [("chunk_id", .int c.chunk_id), ("file_path", .str c.file_path),
    ("start_line", .int c.start_line), ("end_line", .int c.end_line),
    ("tokens", .int c.tokens), ("text", .str c.text),
    ("embedding", .arr (c.embedding.map Json.float)),
    ("cluster_id", optIntJson c.cluster_id)]

/-- `cluster.model_dump(mode='json')` (docpack.py line 65). -/
def clusterToJson (cl : Cluster) : Json :=
  .obj [("cluster_id", .int cl.cluster_id),
    ("chunk_ids", .arr (cl.chunk_ids.map Json.int)),
    ("centroid", match cl.centroid with
      | none => .null
      | some v => .arr (v.map Json.float)),
    ("summary", match cl.summary with
      | none => .null
      | some j => j)]

/-- `manifest.model_dump(mode='json')` (docpack.py line 52). -/
def manifestToJson (m : DocpackManifest) : Json :=
  .obj [("created_at", .str m.created_at), ("doctown_version", .str m.doctown_version),
    ("source_type", .str m.source_type), ("source_identifier", .str m.source_identifier),
    ("intent_name", .str m.intent_name), ("intent_description", .str m.intent_description),
    ("file_count", .int m.file_count), ("chunk_count", .int m.chunk_count),
    ("cluster_count", .int m.cluster_count), ("total_tokens", .int m.total_tokens),
    ("embedding_dim", .int m.embedding_dim),
    ("includes_raw_files", .bool m.includes_raw_files)]

def parseStr : Json → Except DpErr String
  | .str s => .ok s
  | _ => .error .parseError

def parseInt : Json → Except DpErr Int
  | .int n => .ok n
  | _ => .error .parseError

def parseBool : Json → Except DpErr Bool
  | .bool b => .ok b
  | _ => .error .parseError

/-- Pydantic accepts an `int` JSON number for a `float` field. -/
def parseFloat : Json → Except DpErr Rat
  | .float q => .ok q
  | .int n => .ok (n : Rat)
  | _ => .error .parseError

def reqField (kvs : List (String × Json)) (k : String) : Except DpErr Json :=
  match pyLookup k kvs with
  | some v => .ok v
  | none => .error .parseError

def optStrField (kvs : List (String × Json)) (k : String) (dflt : String) :
    Except DpErr String :=
  match pyLookup k kvs with
  | none => .ok dflt
  | some v => parseStr v

def optBoolField (kvs : List (String × Json)) (k : String) (dflt : Bool) :
    Except DpErr Bool :=
  match pyLookup k kvs with
  | none => .ok dflt
  | some v => parseBool v

def parseFloatList : Json → Except DpErr (List Rat)
  | .arr xs => xs.mapM parseFloat
  | _ => .error .parseError

def parseIntList : Json → Except DpErr (List Int)
  | .arr xs => xs.mapM parseInt
  | _ => .error .parseError

def parseOptInt : Option Json → Except DpErr (Option Int)
  | none => .ok none
  | some .null => .ok none
  | some (.int n) => .ok (some n)
  | some _ => .error .parseError

def parseOptFloatList : Option Json → Except DpErr (Option (List Rat))
  | none => .ok none
  | some .null => .ok none
  | some (.arr xs) => (xs.mapM parseFloat).map some
  | some _ => .error .parseError

def parseOptObj : Option Json → Except DpErr (Option Json)
  | none => .ok none
  | some .null => .ok none
  | some (.obj kvs) => .ok (some (.obj kvs))
  | some _ => .error .parseError

/-- Pydantic `Dict[str, Any]` field validation: the value must be a dict. -/
def asObj : Json → Except DpErr Json
  | .obj kvs => .ok (.obj kvs)
  | _ => .error .parseError

/-- `Chunk(**chunk_data)` (docpack.py line 117). -/
def chunkFromJson (j : Json) : Except DpErr Chunk :=
  match j with
  | .obj kvs => do
    let cid ← reqField kvs "chunk_id" >>= parseInt
    let fp ← reqField kvs "file_path" >>= parseStr
    let sl ← reqField kvs "start_line" >>= parseInt
    let el ← reqField kvs "end_line" >>= parseInt
    let tk ← reqField kvs "tokens" >>= parseInt
    let tx ← reqField kvs "text" >>= parseStr
    let emb ← reqField kvs "embedding" >>= parseFloatList
    let cl ← parseOptInt (pyLookup "cluster_id" kvs)
    pure ⟨cid, fp, sl, el, tk, tx, emb, cl⟩
  | _ => .error .parseError

/-- `Cluster(**cluster_data)` (docpack.py line 124). -/
def clusterFromJson (j : Json) : Except DpErr Cluster :=
  match j with
  | .obj kvs => do
    let cid ← reqField kvs "cluster_id" >>= parseInt
    let ids ← reqField kvs "chunk_ids" >>= parseIntList
    let cen ← parseOptFloatList (pyLookup "centroid" kvs)
    let sm ← parseOptObj (pyLookup "summary" kvs)
    pure ⟨cid, ids, cen, sm⟩
  | _ => .error .parseError

/-- `DocpackManifest(**manifest_data)` (docpack.py line 107). -/
def manifestFromJson (j : Json) : Except DpErr DocpackManifest :=
  match j with
  | .obj kvs => do
    let ca ← optStrField kvs "created_at" "1970-01-01T00:00:00"
    let dv ← optStrField kvs "doctown_version" "0.1.0"
    let st ← reqField kvs "source_type" >>= parseStr
    let si ← reqField kvs "source_identifier" >>= parseStr
    let inm ← reqField kvs "intent_name" >>= parseStr
    let idc ← reqField kvs "intent_description" >>= parseStr
    let fc ← reqField kvs "file_count" >>= parseInt
    let cc ← reqField kvs "chunk_count" >>= parseInt
    let clc ← reqField kvs "cluster_count" >>= parseInt
    let tt ← reqField kvs "total_tokens" >>= parseInt
    let ed ← reqField kvs "embedding_dim" >>= parseInt
    let irf ← optBoolField kvs "includes_raw_files" true
    pure ⟨ca, dv, st, si, inm, idc, fc, cc, clc, tt, ed, irf⟩
  | _ => .error .parseError

/-! ### Writer and reader over the entry list -/

/-- Python truthiness of `self.docpack.raw_files` (docpack.py line 71):
`None` and `\x7b\x7d` are falsy. -/
def rawFilesTruthy : Option (List (String × String)) → Bool
  | none => false
  | some m => !m.isEmpty

/-- `DocpackWriter.write` (docpack.py lines 40-74): the entry list of the
produced archive, in write order. -/
def docpackWrite (d : Docpack) : List (String × ZEntry) :=
  [("manifest.json", .json (manifestToJson d.manifest)),
    ("intent.yaml", .yaml d.intent_spec)]
  ++ d.chunks.map (fun c => (chunkRecName c.chunk_id, ZEntry.json (chunkToJson c)))
  ++ d.clusters.map (fun cl => (clusterRecName cl.cluster_id, ZEntry.json (clusterToJson cl)))
  ++ [("project_summary.json", ZEntry.json d.project_summary)]
  ++ (if d.manifest.includes_raw_files && rawFilesTruthy d.raw_files then
      (d.raw_files.getD []).map (fun pb => ("raw/" ++ pb.1, ZEntry.bytes pb.2))
    else [])

/-- `zf.read(name)`: `ZipFile` keys entries by name, and with duplicate
names the last entry shadows the earlier ones. -/
def zread (entries : List (String × ZEntry)) (name : String) : Option ZEntry :=
  (entries.reverse.find? (fun e => e.1 == name)).map (fun e => e.2)

/-- `_read_json` (docpack.py lines 148-152): `KeyError` if the name is
absent. -/
def zreadJson (entries : List (String × ZEntry)) (name : String) : Except DpErr Json :=
  match zread entries name with
  | some (.json j) => .ok j
  | some _ => .error .parseError
  | none => .error (.keyError name)

/-- `_read_yaml` (docpack.py lines 154-158). -/
def zreadYaml (entries : List (String × ZEntry)) (name : String) : Except DpErr Json :=
  match zread entries name with
  | some (.yaml j) => .ok j
  | some _ => .error .parseError
  | none => .error (.keyError name)

def entryBytes : ZEntry → String
  | .bytes b => b
  | .json _ => ""
  | .yaml _ => ""

/-- The bytes `zf.read(n)` returns for a name known to be present (the
byte serialization of structured payloads is not modelled; every `raw/`
record a writer produces is a bytes payload). -/
def rawValue (entries : List (String × ZEntry)) (n : String) : String :=
  match zread entries n with
  | some v => entryBytes v
  | none => ""

/-- `[name for name in zf.namelist() if name.startswith(pre)]`. -/
def namesWith (entries : List (String × ZEntry)) (pre : String) : List String :=
  (entries.map Prod.fst).filter (fun n => pyStartsWith n pre)

/-- `DocpackReader.read` (docpack.py lines 97-146).  `sorted` is
`insertionSort` by Python string order.  In the `raw_files` dict each
occurrence of a name contributes the by-name lookup `zf.read(raw_file)`;
a container whose `raw/` names repeat would collapse to one dict entry in
Python where this list keeps the (equal-valued) occurrences — written
archives never repeat a name. -/
def docpackRead (entries : List (String × ZEntry)) : Except DpErr Docpack := do
  let mj ← zreadJson entries "manifest.json"
  let manifest ← manifestFromJson mj
  let iy ← zreadYaml entries "intent.yaml"
  let intent_spec ← asObj iy
  let chunks ← (List.insertionSort StrLe (namesWith entries "chunks/")).mapM
    (fun n => zreadJson entries n >>= chunkFromJson)
  let clusters ← (List.insertionSort StrLe (namesWith entries "clusters/")).mapM
    (fun n => zreadJson entries n >>= clusterFromJson)
  let pj ← zreadJson entries "project_summary.json"
  let project_summary ← asObj pj
  let raw_files : Option (List (String × String)) :=
    if manifest.includes_raw_files then
      some ((entries.filter (fun e => pyStartsWith e.1 "raw/")).map
        (fun e => (pyDrop e.1 4, rawValue entries e.1)))
    else none
  pure ⟨manifest, intent_spec, chunks, clusters, project_summary, raw_files⟩

/-! ### Sorting chunk and cluster records by name -/

/-- Order of chunks by their record name (what sorting the chunk record
names does to the parsed chunk list). -/
def chunkNameLe (a b : Chunk) : Prop :=
  StrLe (chunkRecName a.chunk_id) (chunkRecName b.chunk_id)

instance : DecidableRel chunkNameLe := fun a b =>
  inferInstanceAs (Decidable (StrLe _ _))

def clusterNameLe (a b : Cluster) : Prop :=
  StrLe (clusterRecName a.cluster_id) (clusterRecName b.cluster_id)

instance : DecidableRel clusterNameLe := fun a b =>
  inferInstanceAs (Decidable (StrLe _ _))

def rtCexDocpack : Docpack :=
  ⟨⟨"t", "0.1.0", "zip", "s", "i", "d", 0, 0, 0, 0, 0, false⟩, Json.obj [],
    [], [], Json.obj [], none⟩

def ordCexDocpack : Docpack :=
  ⟨⟨"t", "0.1.0", "zip", "s", "i", "d", 1, 2, 0, 0, 0, false⟩, Json.obj [],
    [⟨9999, "a.py", 1, 1, 0, "x", [], none⟩, ⟨10000, "b.py", 1, 1, 0, "y", [], none⟩],
    [], Json.obj [], none⟩

def rawWitEntries : List (String × ZEntry) :=
  [("manifest.json", .json (manifestToJson
      ⟨"2024-01-01T00:00:00", "0.1.0", "zip", "s", "i", "d", 0, 0, 0, 0, 0, true⟩)),
    ("intent.yaml", .yaml (Json.obj [])),
    ("project_summary.json", .json (Json.obj [])),
    ("raw/a.txt", .bytes "hello")]

def rawWitDocpack : Docpack :=
  ⟨⟨"2024-01-01T00:00:00", "0.1.0", "zip", "s", "i", "d", 0, 0, 0, 0, 0, true⟩,
    Json.obj [], [], [], Json.obj [], some [("a.txt", "hello")]⟩

def rtWitDocpack : Docpack :=
  ⟨⟨"2024-01-01T00:00:00", "0.1.0", "zip", "s", "i", "d", 1, 1, 1, 1, 0, false⟩,
    Json.obj [("name", Json.str "i")],
    [⟨0, "a.py", 1, 1, 1, "text", [], some 0⟩],
    [⟨0, [0], some [], some (Json.obj [("t", Json.str "x")])⟩],
    Json.obj [("s", Json.str "ok")], none⟩

def ordWitDocpack : Docpack :=
  ⟨⟨"2024-01-01T00:00:00", "0.1.0", "zip", "s", "i", "d", 1, 2, 0, 0, 0, false⟩,
    Json.obj [],
    [⟨2, "b.py", 1, 1, 0, "y", [], none⟩, ⟨1, "a.py", 1, 1, 0, "x", [], none⟩],
    [], Json.obj [], none⟩

/-! ## Theorems -/

theorem splitLinesChars_ne_nil (cs : List Char) : splitLinesChars cs ≠ [] := by
  cases cs with
  | nil => simp [splitLinesChars]
  | cons c cs =>
    simp only [splitLinesChars]
    rcases h : splitLinesChars cs with _ | ⟨g, gs⟩
    · simp
    · by_cases hc : c = '\n' <;> simp [hc]

theorem pySplitLines_ne_nil (s : String) : pySplitLines s ≠ [] := by
  unfold pySplitLines
  simpa using splitLinesChars_ne_nil s.data

/-! Basic facts about `takeOverlap`. -/

theorem takeOverlap_prefix (overlap : Nat) : ∀ (acc : Nat) (l : List String),
    takeOverlap overlap acc l <+: l := by
  intro acc l
  induction l generalizing acc with
  | nil => simp [takeOverlap]
  | cons x xs ih =>
    simp only [takeOverlap]
    split
    · exact List.nil_prefix
    · obtain ⟨t, ht⟩ := ih (acc + count_tokens x)
      exact ⟨t, by simp [ht]⟩

theorem takeOverlap_sum (overlap : Nat) : ∀ (acc : Nat) (l : List String),
    acc ≤ overlap → acc + tokenSum (takeOverlap overlap acc l) ≤ overlap := by
  intro acc l
  induction l generalizing acc with
  | nil => intro h; simpa [takeOverlap, tokenSum]
  | cons x xs ih =>
    intro h
    simp only [takeOverlap]
    split
    · simpa [tokenSum]
    · rename_i hle
      push_neg at hle
      have := ih (acc + count_tokens x) hle
      simp only [tokenSum, List.map_cons, List.sum_cons] at this ⊢
      omega

theorem takeOverlap_max (overlap : Nat) : ∀ (acc : Nat) (l : List String),
    takeOverlap overlap acc l ≠ l →
    ∃ y r, l = takeOverlap overlap acc l ++ y :: r ∧
      overlap < acc + tokenSum (takeOverlap overlap acc l) + count_tokens y := by
  intro acc l
  induction l generalizing acc with
  | nil => intro h; simp [takeOverlap] at h
  | cons x xs ih =>
    intro h
    simp only [takeOverlap] at h ⊢
    by_cases hlt : overlap < acc + count_tokens x
    · rw [if_pos hlt] at h ⊢
      exact ⟨x, xs, by simp, by simpa [tokenSum] using hlt⟩
    · rw [if_neg hlt] at h ⊢
      have hne : takeOverlap overlap (acc + count_tokens x) xs ≠ xs := by
        intro heq
        exact h (by rw [heq])
      obtain ⟨y, r, hyr, hsum⟩ := ih (acc + count_tokens x) hne
      refine ⟨y, r, by simpa using congrArg (x :: ·) hyr, ?_⟩
      simp only [tokenSum, List.map_cons, List.sum_cons] at hsum ⊢
      omega

theorem tokenSum_reverse (l : List String) : tokenSum l.reverse = tokenSum l := by
  simp [tokenSum, List.map_reverse, List.sum_reverse]

theorem tokenSum_append (a b : List String) :
    tokenSum (a ++ b) = tokenSum a + tokenSum b := by
  simp [tokenSum]

theorem getLast_append_one {α : Type _} (l : List α) (c : α) (h : l ++ [c] ≠ []) :
    (l ++ [c]).getLast h = c := by
  simp [List.getLast_append]

theorem take_drop_sliceOf (lines : List String) (s idx : Nat) (h1 : 1 ≤ idx) :
    (lines.take idx).drop s = SliceOf lines s (idx - 1) := by
  unfold SliceOf
  rw [List.drop_take]
  congr 1
  omega

theorem chainP_append_one (lines : List String) (overlap : Nat) :
    ∀ (l : List PChunk) (c : PChunk), ChainP lines overlap l → NodeP lines c →
    (∀ h : l ≠ [], LinkP lines overlap (l.getLast h) c.s ∧ (l.getLast h).e ≤ c.e) →
    ChainP lines overlap (l ++ [c])
  | [], c, _, hn, _ => by simpa [ChainP] using hn
  | [c1], c, hch, hn, hlast => by
    have h1 := hlast (by simp)
    simp only [List.getLast_singleton] at h1
    simp only [ChainP] at hch
    exact ⟨hch, h1.1, h1.2, by simpa [ChainP] using hn⟩
  | c1 :: c2 :: rest, c, hch, hn, hlast => by
    simp only [ChainP] at hch
    obtain ⟨hn1, hl1, he1, hch2⟩ := hch
    have hlast2 : ∀ h : c2 :: rest ≠ [],
        LinkP lines overlap ((c2 :: rest).getLast h) c.s ∧
          ((c2 :: rest).getLast h).e ≤ c.e := by
      intro h
      have := hlast (by simp)
      rwa [List.getLast_cons h] at this
    have := chainP_append_one lines overlap (c2 :: rest) c hch2 hn hlast2
    exact ⟨hn1, hl1, he1, this⟩

theorem splitStep_inv (lines : List String) (chunk_size overlap idx : Nat) (st : SState)
    (hinv : SInv lines overlap idx st) (hlt : idx < lines.length) :
    SInv lines overlap (idx + 1)
      (splitStep chunk_size overlap idx (lines.get ⟨idx, hlt⟩) st) := by
  obtain ⟨hidx, hstart, hcur, htok, hchain, hhead, hempty, hlink, hlaste, hne⟩ := hinv
  have hlen_take : (lines.take idx).length = idx := by
    simp [List.length_take]
    omega
  have htake_succ : lines.take (idx + 1) = lines.take idx ++ [lines.get ⟨idx, hlt⟩] := by
    rw [List.take_succ]
    congr 1
    simp [List.getElem?_eq_getElem hlt]
  unfold splitStep
  by_cases hcond : chunk_size < st.tok + count_tokens (lines.get ⟨idx, hlt⟩) ∧ st.cur ≠ []
  · rw [if_pos hcond]
    have hcurne := hcond.2
    have hstartlt : st.start < idx := by
      by_contra hge
      push_neg at hge
      apply hcurne
      rw [hcur, List.drop_eq_nil_iff]
      omega
    have hcurlen : st.cur.length = idx - st.start := by
      rw [hcur]
      simp [hlen_take]
    -- the overlap walk and its reverse
    set ovl := (takeOverlap overlap 0 st.cur.reverse).reverse with hovl
    obtain ⟨r, hr⟩ := takeOverlap_prefix overlap 0 st.cur.reverse
    have hcursplit : st.cur = r.reverse ++ ovl := by
      have h2 := congrArg List.reverse hr
      rw [List.reverse_append, List.reverse_reverse] at h2
      rw [← h2, hovl]
    have hlensplit : st.cur.length = r.reverse.length + ovl.length := by
      rw [hcursplit, List.length_append]
    have hsum : tokenSum ovl ≤ overlap := by
      rw [hovl, tokenSum_reverse]
      simpa using takeOverlap_sum overlap 0 st.cur.reverse (Nat.zero_le _)
    have hovl_slice : (lines.take idx).drop (idx - ovl.length) = ovl := by
      have h1 : idx - ovl.length = st.start + r.reverse.length := by omega
      rw [h1, ← List.drop_drop, ← hcur, hcursplit, List.drop_left]
    -- the new state satisfies the invariant
    have hslice_cur : SliceOf lines st.start (idx - 1) = st.cur := by
      rw [← take_drop_sliceOf lines st.start idx (by omega), hcur]
    have hclosed_node : NodeP lines ⟨String.intercalate "\n" st.cur, st.start, idx - 1⟩ := by
      refine ⟨show st.start ≤ idx - 1 by omega, show idx - 1 < lines.length by omega, ?_⟩
      show String.intercalate "\n" st.cur =
        String.intercalate "\n" (SliceOf lines st.start (idx - 1))
      rw [hslice_cur]
    have hslice_ovl : SliceOf lines (idx - ovl.length) (idx - 1) = ovl := by
      rw [← take_drop_sliceOf lines (idx - ovl.length) idx (by omega), hovl_slice]
    refine ⟨show idx + 1 ≤ lines.length by omega,
      show idx - ovl.length ≤ idx + 1 by omega, ?_, ?_, ?_, ?_, ?_, ?_, ?_, ?_⟩
    · -- hcur
      show ovl ++ [lines.get ⟨idx, hlt⟩] = (lines.take (idx + 1)).drop (idx - ovl.length)
      rw [htake_succ, List.drop_append_of_le_length (by omega), hovl_slice]
    · -- htok
      show tokenSum ovl + count_tokens (lines.get ⟨idx, hlt⟩) = tokenSum (ovl ++ [_])
      simp [tokenSum_append, tokenSum]
    · -- hchain
      apply chainP_append_one lines overlap st.out _ hchain hclosed_node
      intro h
      refine ⟨hlink h, ?_⟩
      have := hlaste h
      show (st.out.getLast h).e ≤ idx - 1
      omega
    · -- hhead
      intro c hc
      rcases hout : st.out with _ | ⟨c0, rest⟩
      · rw [hout] at hc
        simp only [List.nil_append, List.head?_cons, Option.some.injEq] at hc
        rw [← hc]
        show st.start = 0
        exact hempty hout
      · rw [hout] at hc
        simp only [List.cons_append, List.head?_cons, Option.some.injEq] at hc
        apply hhead
        rw [hout]
        simp [hc]
    · -- hempty
      intro habs
      exact absurd habs (by simp)
    · -- hlink
      intro h
      rw [getLast_append_one]
      refine ⟨show st.start ≤ idx - ovl.length by omega,
        show idx - ovl.length ≤ (idx - 1) + 1 by omega, ?_, ?_, ?_⟩
      · show SliceOf lines (idx - ovl.length) (idx - 1) <:+ SliceOf lines st.start (idx - 1)
        rw [hslice_ovl, hslice_cur]
        exact ⟨r.reverse, hcursplit.symm⟩
      · show tokenSum (SliceOf lines (idx - ovl.length) (idx - 1)) ≤ overlap
        rw [hslice_ovl]
        exact hsum
      · by_cases hov : ovl = st.cur
        · left
          show idx - ovl.length = st.start
          rw [hov]
          omega
        · right
          have htne : takeOverlap overlap 0 st.cur.reverse ≠ st.cur.reverse := by
            intro habs
            apply hov
            rw [hovl, habs, List.reverse_reverse]
          obtain ⟨y, rr, hyr, hsum2⟩ := takeOverlap_max overlap 0 st.cur.reverse htne
          have hcursplit2 : st.cur = rr.reverse ++ y :: ovl := by
            have h2 := congrArg List.reverse hyr
            rw [List.reverse_reverse] at h2
            rw [h2, hovl]
            simp [List.reverse_append]
          have hlensplit2 : st.cur.length = rr.reverse.length + (ovl.length + 1) := by
            rw [hcursplit2]
            simp
          have hslice2 : (lines.take idx).drop (idx - (ovl.length + 1)) = y :: ovl := by
            have h1 : idx - (ovl.length + 1) = st.start + rr.reverse.length := by omega
            rw [h1, ← List.drop_drop, ← hcur, hcursplit2, List.drop_left]
          have hslice3 : SliceOf lines (idx - ovl.length - 1) (idx - 1) = y :: ovl := by
            rw [← take_drop_sliceOf lines (idx - ovl.length - 1) idx (by omega)]
            have h2 : idx - ovl.length - 1 = idx - (ovl.length + 1) := by omega
            rw [h2, hslice2]
          show overlap < tokenSum (SliceOf lines (idx - ovl.length - 1) (idx - 1))
          rw [hslice3]
          have h3 : tokenSum (y :: ovl) =
              count_tokens y + tokenSum (takeOverlap overlap 0 st.cur.reverse) := by
            rw [hovl]
            simp [tokenSum, List.map_reverse, List.sum_reverse]
          rw [h3]
          omega
    · -- hlaste
      intro h
      rw [getLast_append_one]
      show idx - 1 < idx + 1
      omega
    · -- hne
      intro _
      simp
  · rw [if_neg hcond]
    refine ⟨show idx + 1 ≤ lines.length by omega, show st.start ≤ idx + 1 by omega,
      ?_, ?_, hchain, hhead, hempty, ?_, ?_, ?_⟩
    · show st.cur ++ [lines.get ⟨idx, hlt⟩] = (lines.take (idx + 1)).drop st.start
      rw [htake_succ, List.drop_append_of_le_length (by omega), hcur]
    · show st.tok + count_tokens (lines.get ⟨idx, hlt⟩) = tokenSum (st.cur ++ [_])
      simp [tokenSum_append, tokenSum, htok]
    · exact hlink
    · intro h
      have := hlaste h
      show (st.out.getLast h).e < idx + 1
      omega
    · intro _
      simp

theorem splitGo_inv (lines : List String) (chunk_size overlap : Nat) :
    ∀ (rest : List String) (idx : Nat) (st : SState),
      rest = lines.drop idx → SInv lines overlap idx st →
      SInv lines overlap lines.length (splitGo chunk_size overlap idx rest st) := by
  intro rest
  induction rest with
  | nil =>
    intro idx st hrest hinv
    have hge : lines.length ≤ idx := List.drop_eq_nil_iff.mp hrest.symm
    have heq : idx = lines.length := le_antisymm hinv.hidx hge
    show SInv lines overlap lines.length st
    exact heq ▸ hinv
  | cons line rest ih =>
    intro idx st hrest hinv
    have hlt : idx < lines.length := by
      by_contra hc
      push_neg at hc
      rw [List.drop_eq_nil_iff.mpr hc] at hrest
      exact absurd hrest (by simp)
    have hdrop : lines.drop idx = lines.get ⟨idx, hlt⟩ :: lines.drop (idx + 1) :=
      List.drop_eq_getElem_cons hlt
    rw [hdrop] at hrest
    have hline : line = lines.get ⟨idx, hlt⟩ := by
      injection hrest with h1 _
    have hrest2 : rest = lines.drop (idx + 1) := by
      injection hrest with _ h2
    show SInv lines overlap lines.length
      (splitGo chunk_size overlap (idx + 1) rest (splitStep chunk_size overlap idx line st))
    rw [hline]
    exact ih (idx + 1) _ hrest2 (splitStep_inv lines chunk_size overlap idx st hinv hlt)

theorem split_invariant (text : String) (chunk_size overlap : Nat) :
    SInv (pySplitLines text) overlap (pySplitLines text).length
      (splitGo chunk_size overlap 0 (pySplitLines text) ⟨[], 0, 0, []⟩) := by
  apply splitGo_inv (pySplitLines text) chunk_size overlap (pySplitLines text) 0
  · simp
  · exact ⟨Nat.zero_le _, le_refl 0, by simp, by simp [tokenSum], trivial,
      by intro c hc; simp at hc, fun _ => rfl, by intro h; simp at h,
      by intro h; simp at h, by intro h; simp at h⟩

/-- Structure of the full output of `split_text_by_tokens`: a non-empty
chain of chunks whose first chunk starts at line 0 and whose last chunk
ends at the last line. -/
theorem split_structure (text : String) (chunk_size overlap : Nat) :
    split_text_by_tokens text chunk_size overlap ≠ [] ∧
      ChainP (pySplitLines text) overlap (split_text_by_tokens text chunk_size overlap) ∧
      (∀ c, (split_text_by_tokens text chunk_size overlap).head? = some c → c.s = 0) ∧
      ∀ h : split_text_by_tokens text chunk_size overlap ≠ [],
        ((split_text_by_tokens text chunk_size overlap).getLast h).e =
          (pySplitLines text).length - 1 := by
  have hn : (pySplitLines text).length ≠ 0 := by
    simpa using pySplitLines_ne_nil text
  have hinv := split_invariant text chunk_size overlap
  obtain ⟨hidx, hstart, hcur, htok, hchain, hhead, hempty, hlink, hlaste, hne⟩ := hinv
  have hcurne := hne hn
  have hres : split_text_by_tokens text chunk_size overlap =
      (splitGo chunk_size overlap 0 (pySplitLines text) ⟨[], 0, 0, []⟩).out ++
        [⟨String.intercalate "\n"
            (splitGo chunk_size overlap 0 (pySplitLines text) ⟨[], 0, 0, []⟩).cur,
          (splitGo chunk_size overlap 0 (pySplitLines text) ⟨[], 0, 0, []⟩).start,
          (pySplitLines text).length - 1⟩] := by
    unfold split_text_by_tokens
    rw [if_pos hcurne]
  set st := splitGo chunk_size overlap 0 (pySplitLines text) ⟨[], 0, 0, []⟩ with hst
  have hstartlt : st.start < (pySplitLines text).length := by
    by_contra hge
    push_neg at hge
    apply hcurne
    rw [hcur, List.drop_eq_nil_iff]
    simp
    omega
  have hfin_node : NodeP (pySplitLines text)
      ⟨String.intercalate "\n" st.cur, st.start, (pySplitLines text).length - 1⟩ := by
    refine ⟨show st.start ≤ (pySplitLines text).length - 1 by omega,
      show (pySplitLines text).length - 1 < (pySplitLines text).length by omega, ?_⟩
    show String.intercalate "\n" st.cur = String.intercalate "\n"
      (SliceOf (pySplitLines text) st.start ((pySplitLines text).length - 1))
    rw [← take_drop_sliceOf (pySplitLines text) st.start (pySplitLines text).length
      (by omega), ← hcur]
  refine ⟨by rw [hres]; simp, ?_, ?_, ?_⟩
  · rw [hres]
    apply chainP_append_one _ _ _ _ hchain hfin_node
    intro h
    refine ⟨hlink h, ?_⟩
    have := hlaste h
    show (st.out.getLast h).e ≤ (pySplitLines text).length - 1
    omega
  · intro c hc
    rw [hres] at hc
    rcases hout : st.out with _ | ⟨c0, rest⟩
    · rw [hout] at hc
      simp only [List.nil_append, List.head?_cons, Option.some.injEq] at hc
      rw [← hc]
      show st.start = 0
      exact hempty hout
    · rw [hout] at hc
      simp only [List.cons_append, List.head?_cons, Option.some.injEq] at hc
      apply hhead
      rw [hout]
      simp [hc]
  · intro h
    have h1 : (split_text_by_tokens text chunk_size overlap).getLast? =
        some ((split_text_by_tokens text chunk_size overlap).getLast h) :=
      List.getLast?_eq_getLast _ h
    conv at h1 => lhs; rw [hres]
    rw [List.getLast?_concat] at h1
    have h2 := Option.some.inj h1
    rw [← h2]

/-! Extraction of per-index facts from a chunk chain. -/

theorem chainP_node (lines : List String) (overlap : Nat) :
    ∀ (l : List PChunk), ChainP lines overlap l →
      ∀ i (h : i < l.length), NodeP lines (l.get ⟨i, h⟩)
  | [], _, i, h => absurd h (by simp)
  | [c], hch, 0, h => hch
  | [c], _, i + 1, h => absurd h (by simp)
  | c :: c2 :: rest, hch, 0, h => hch.1
  | c :: c2 :: rest, hch, i + 1, h => by
    have := chainP_node lines overlap (c2 :: rest) hch.2.2.2 i (by simpa using h)
    simpa using this

theorem chainP_link (lines : List String) (overlap : Nat) :
    ∀ (l : List PChunk), ChainP lines overlap l →
      ∀ i (h : i + 1 < l.length),
        LinkP lines overlap (l.get ⟨i, Nat.lt_of_succ_lt h⟩) ((l.get ⟨i + 1, h⟩).s) ∧
          (l.get ⟨i, Nat.lt_of_succ_lt h⟩).e ≤ (l.get ⟨i + 1, h⟩).e
  | [], _, i, h => absurd h (by simp)
  | [c], _, i, h => absurd h (by simp)
  | c :: c2 :: rest, hch, 0, h => ⟨hch.2.1, hch.2.2.1⟩
  | c :: c2 :: rest, hch, i + 1, h => by
    have := chainP_link lines overlap (c2 :: rest) hch.2.2.2 i (by simpa using h)
    simpa using this

theorem chainP_cover (lines : List String) (overlap : Nat) :
    ∀ (l : List PChunk), ChainP lines overlap l → ∀ (hne : l ≠ []) (j : Nat),
      (l.head hne).s ≤ j → j ≤ (l.getLast hne).e →
      ∃ i, ∃ h : i < l.length, (l.get ⟨i, h⟩).s ≤ j ∧ j ≤ (l.get ⟨i, h⟩).e
  | [], _, hne, _, _, _ => absurd rfl hne
  | [c], hch, hne, j, hj1, hj2 => ⟨0, by simp, hj1, hj2⟩
  | c :: c2 :: rest, hch, hne, j, hj1, hj2 => by
    by_cases hje : j ≤ c.e
    · exact ⟨0, by simp, hj1, hje⟩
    · push_neg at hje
      have hlk : LinkP lines overlap c c2.s := hch.2.1
      have hc2s : c2.s ≤ j := by
        have := hlk.2.1
        omega
      have hlast : (c :: c2 :: rest).getLast hne = (c2 :: rest).getLast (by simp) :=
        List.getLast_cons _
      rw [hlast] at hj2
      obtain ⟨i, hi, hs, he⟩ := chainP_cover lines overlap (c2 :: rest) hch.2.2.2
        (by simp) j (by simpa using hc2s) hj2
      exact ⟨i + 1, by simpa using hi, by simpa using hs, by simpa using he⟩

theorem take_prefix_take {α : Type _} (l : List α) {m n : Nat} (h : m ≤ n) :
    l.take m <+: l.take n := by
  have := List.take_prefix m (l.take n)
  rwa [List.take_take, min_eq_left h] at this

/-- C4: for every input text and every chunk-size and overlap budget, any two
consecutive chunks of `split_text_by_tokens` share a region that is a whole
number of source lines (`lines[c2.s..c1.e]`, simultaneously a suffix of the
first chunk's lines and a prefix of the second chunk's lines), the token sum
of those shared lines never exceeds the overlap budget, and the backward
walk that seeded the second chunk stopped at, and excluded, the first line
whose inclusion would exceed the budget (either the whole previous chunk
was reused, or adding one more line would overshoot). -/
theorem split_overlap_spec (text : String) (chunk_size overlap : Nat) :
    ∀ i (h : i + 1 < (split_text_by_tokens text chunk_size overlap).length),
      ((split_text_by_tokens text chunk_size overlap).get
          ⟨i, Nat.lt_of_succ_lt h⟩).s ≤
        ((split_text_by_tokens text chunk_size overlap).get ⟨i + 1, h⟩).s ∧
      ((split_text_by_tokens text chunk_size overlap).get ⟨i + 1, h⟩).s ≤
        ((split_text_by_tokens text chunk_size overlap).get
          ⟨i, Nat.lt_of_succ_lt h⟩).e + 1 ∧
      SliceOf (pySplitLines text)
          ((split_text_by_tokens text chunk_size overlap).get ⟨i + 1, h⟩).s
          ((split_text_by_tokens text chunk_size overlap).get
            ⟨i, Nat.lt_of_succ_lt h⟩).e <:+
        SliceOf (pySplitLines text)
          ((split_text_by_tokens text chunk_size overlap).get
            ⟨i, Nat.lt_of_succ_lt h⟩).s
          ((split_text_by_tokens text chunk_size overlap).get
            ⟨i, Nat.lt_of_succ_lt h⟩).e ∧
      SliceOf (pySplitLines text)
          ((split_text_by_tokens text chunk_size overlap).get ⟨i + 1, h⟩).s
          ((split_text_by_tokens text chunk_size overlap).get
            ⟨i, Nat.lt_of_succ_lt h⟩).e <+:
        SliceOf (pySplitLines text)
          ((split_text_by_tokens text chunk_size overlap).get ⟨i + 1, h⟩).s
          ((split_text_by_tokens text chunk_size overlap).get ⟨i + 1, h⟩).e ∧
      tokenSum (SliceOf (pySplitLines text)
          ((split_text_by_tokens text chunk_size overlap).get ⟨i + 1, h⟩).s
          ((split_text_by_tokens text chunk_size overlap).get
            ⟨i, Nat.lt_of_succ_lt h⟩).e) ≤ overlap ∧
      (((split_text_by_tokens text chunk_size overlap).get ⟨i + 1, h⟩).s =
          ((split_text_by_tokens text chunk_size overlap).get
            ⟨i, Nat.lt_of_succ_lt h⟩).s ∨
        overlap < tokenSum (SliceOf (pySplitLines text)
          (((split_text_by_tokens text chunk_size overlap).get ⟨i + 1, h⟩).s - 1)
          ((split_text_by_tokens text chunk_size overlap).get
            ⟨i, Nat.lt_of_succ_lt h⟩).e)) := by
  intro i h
  obtain ⟨hne, hchain, hhead, hlast⟩ := split_structure text chunk_size overlap
  obtain ⟨hlk, hemono⟩ :=
    chainP_link (pySplitLines text) overlap (split_text_by_tokens text chunk_size overlap)
      hchain i h
  obtain ⟨h1, h2, h3, h4, h5⟩ := hlk
  refine ⟨h1, h2, h3, ?_, h4, h5⟩
  unfold SliceOf
  apply take_prefix_take
  omega

/-- C5: for every input text (which always has at least one line), the chunks
of `split_text_by_tokens` cover every line with no gaps: the result is
non-empty, the first chunk starts at line 0, each chunk's start is at most
one past the previous chunk's end, the last chunk (the always-emitted
trailing buffer) ends at the last line, every chunk's text is the verbatim
newline-join of the source lines in its inclusive line range, and every
line index of the text lies inside some chunk's range. -/
theorem split_coverage_spec (text : String) (chunk_size overlap : Nat) :
    split_text_by_tokens text chunk_size overlap ≠ [] ∧
    (∀ c, (split_text_by_tokens text chunk_size overlap).head? = some c → c.s = 0) ∧
    (∀ h : split_text_by_tokens text chunk_size overlap ≠ [],
      ((split_text_by_tokens text chunk_size overlap).getLast h).e =
        (pySplitLines text).length - 1) ∧
    (∀ i (h : i < (split_text_by_tokens text chunk_size overlap).length),
      ((split_text_by_tokens text chunk_size overlap).get ⟨i, h⟩).s ≤
        ((split_text_by_tokens text chunk_size overlap).get ⟨i, h⟩).e ∧
      ((split_text_by_tokens text chunk_size overlap).get ⟨i, h⟩).text =
        String.intercalate "\n" (SliceOf (pySplitLines text)
          ((split_text_by_tokens text chunk_size overlap).get ⟨i, h⟩).s
          ((split_text_by_tokens text chunk_size overlap).get ⟨i, h⟩).e)) ∧
    (∀ i (h : i + 1 < (split_text_by_tokens text chunk_size overlap).length),
      ((split_text_by_tokens text chunk_size overlap).get ⟨i + 1, h⟩).s ≤
        ((split_text_by_tokens text chunk_size overlap).get
          ⟨i, Nat.lt_of_succ_lt h⟩).e + 1) ∧
    (∀ j, j < (pySplitLines text).length →
      ∃ i, ∃ h : i < (split_text_by_tokens text chunk_size overlap).length,
        ((split_text_by_tokens text chunk_size overlap).get ⟨i, h⟩).s ≤ j ∧
          j ≤ ((split_text_by_tokens text chunk_size overlap).get ⟨i, h⟩).e) := by
  obtain ⟨hne, hchain, hhead, hlast⟩ := split_structure text chunk_size overlap
  refine ⟨hne, hhead, hlast, ?_, ?_, ?_⟩
  · intro i h
    have hnode := chainP_node (pySplitLines text) overlap _ hchain i h
    exact ⟨hnode.1, hnode.2.2⟩
  · intro i h
    exact (chainP_link (pySplitLines text) overlap _ hchain i h).1.2.1
  · intro j hj
    have hh0 : ((split_text_by_tokens text chunk_size overlap).head hne).s = 0 :=
      hhead _ (List.head?_eq_head hne)
    apply chainP_cover (pySplitLines text) overlap _ hchain hne j
    · omega
    · rw [hlast hne]
      omega

theorem split_overlap_spec_witness :
    (0 + 1 < (split_text_by_tokens "aaaa\nbbbb\ncccc" 1 1).length) ∧
      tokenSum (SliceOf (pySplitLines "aaaa\nbbbb\ncccc")
        ((split_text_by_tokens "aaaa\nbbbb\ncccc" 1 1).get ⟨0 + 1, by decide⟩).s
        ((split_text_by_tokens "aaaa\nbbbb\ncccc" 1 1).get ⟨0, by decide⟩).e) ≤ 1 :=
  ⟨by decide, (split_overlap_spec "aaaa\nbbbb\ncccc" 1 1 0 (by decide)).2.2.2.2.1⟩

theorem split_coverage_spec_witness :
    (1 < (pySplitLines "aaaa\nbbbb\ncccc").length) ∧
      ∃ i, ∃ h : i < (split_text_by_tokens "aaaa\nbbbb\ncccc" 1 0).length,
        ((split_text_by_tokens "aaaa\nbbbb\ncccc" 1 0).get ⟨i, h⟩).s ≤ 1 ∧
          1 ≤ ((split_text_by_tokens "aaaa\nbbbb\ncccc" 1 0).get ⟨i, h⟩).e :=
  ⟨by decide, (split_coverage_spec "aaaa\nbbbb\ncccc" 1 0).2.2.2.2.2 1 (by decide)⟩

/-- C7: the field schema `topic: str, tags: [str], note?: str` compiles
without error via `build_model`; against the compiled model every object
missing the required `topic` key fails validation; an otherwise valid
object passes with `note` absent and with `note` null; and every
unrecognized primitive type name compiles to the string type instead of
failing. -/
theorem schema_builder_spec :
    validate_schema (.obj [("topic", .str "str"), ("tags", .arr [.str "str"]),
      ("note?", .str "str")]) = true ∧
    (∀ kvs : List (String × Json), pyLookup "topic" kvs = none →
      model_validate (build_model [("topic", .str "str"), ("tags", .arr [.str "str"]),
        ("note?", .str "str")]) (.obj kvs) = false) ∧
    (∀ (s : String) (ts : List Json), (∀ x ∈ ts, ∃ u, x = Json.str u) →
      model_validate (build_model [("topic", .str "str"), ("tags", .arr [.str "str"]),
          ("note?", .str "str")]) (.obj [("topic", .str s), ("tags", .arr ts)]) = true ∧
      model_validate (build_model [("topic", .str "str"), ("tags", .arr [.str "str"]),
          ("note?", .str "str")])
        (.obj [("topic", .str s), ("tags", .arr ts), ("note", .null)]) = true) ∧
    (∀ s : String, pyToLower s ≠ "str" → pyToLower s ≠ "int" → pyToLower s ≠ "float" →
      pyToLower s ≠ "bool" → pyToLower s ≠ "any" → infer_type (.str s) = .strT) := by
  refine ⟨rfl, ?_, ?_, ?_⟩
  · intro kvs h
    show validateB 3 (.modelT [("topic", false, .strT), ("tags", false, .listT (some .strT)),
      ("note", true, .strT)]) (.obj kvs) = false
    simp [validateB, h]
  · intro s ts hts
    constructor
    · show validateB 3 (.modelT [("topic", false, .strT), ("tags", false, .listT (some .strT)),
        ("note", true, .strT)]) (.obj [("topic", .str s), ("tags", .arr ts)]) = true
      simp [validateB, pyLookup]
      intro x hx
      obtain ⟨u, hu⟩ := hts x hx
      subst hu
      rfl
    · show validateB 3 (.modelT [("topic", false, .strT), ("tags", false, .listT (some .strT)),
        ("note", true, .strT)])
        (.obj [("topic", .str s), ("tags", .arr ts), ("note", .null)]) = true
      simp [validateB, pyLookup]
      intro x hx
      obtain ⟨u, hu⟩ := hts x hx
      subst hu
      rfl
  · intro s h1 h2 h3 h4 h5
    simp [infer_type, h1, h2, h3, h4, h5]

/-! Facts about label assignment and cluster building, used by the C6
partition theorem. -/

theorem assignLabels_map_id : ∀ (chunks : List Chunk) (labels : List Int),
    labels.length = chunks.length →
    (assignLabels chunks labels).map (·.chunk_id) = chunks.map (·.chunk_id)
  | [], _, _ => by simp [assignLabels]
  | c :: cs, [], h => by simp at h
  | c :: cs, l :: ls, h => by
    simp only [assignLabels, List.zipWith_cons_cons, List.map_cons]
    congr 1
    exact assignLabels_map_id cs ls (by simpa using h)

theorem assignLabels_mem : ∀ (chunks : List Chunk) (labels : List Int),
    ∀ c2 ∈ assignLabels chunks labels, ∃ l ∈ labels, c2.cluster_id = some l
  | [], _, c2, h => by simp [assignLabels] at h
  | c :: cs, [], c2, h => by simp [assignLabels] at h
  | c :: cs, l :: ls, c2, h => by
    simp only [assignLabels, List.zipWith_cons_cons, List.mem_cons] at h
    rcases h with h | h
    · exact ⟨l, by simp, by rw [h]⟩
    · obtain ⟨l2, hl2, he⟩ := assignLabels_mem cs ls c2 h
      exact ⟨l2, by simp [hl2], he⟩

theorem buildClusters_length (chunks2 : List Chunk) (k : Nat) :
    (buildClusters chunks2 k).length = k := by
  unfold buildClusters
  rw [List.length_map, List.length_range]

theorem buildClusters_getElem (chunks2 : List Chunk) (k i : Nat)
    (h : i < (buildClusters chunks2 k).length) :
    (buildClusters chunks2 k)[i] =
      { cluster_id := Int.ofNat i
        chunk_ids := (chunks2.filter
          (fun c => c.cluster_id = some (Int.ofNat i))).map (·.chunk_id)
        centroid := some (compute_centroid
          ((chunks2.filter (fun c => c.cluster_id = some (Int.ofNat i))).map (·.embedding)))
        summary := none } := by
  unfold buildClusters
  rw [List.getElem_map, List.getElem_range]

theorem buildClusters_mem (chunks2 : List Chunk) (k : Nat) (cl : Cluster)
    (h : cl ∈ buildClusters chunks2 k) :
    ∃ cid : Nat, cid < k ∧
      cl = { cluster_id := Int.ofNat cid
             chunk_ids := (chunks2.filter
               (fun c => c.cluster_id = some (Int.ofNat cid))).map (·.chunk_id)
             centroid := some (compute_centroid ((chunks2.filter
               (fun c => c.cluster_id = some (Int.ofNat cid))).map (·.embedding)))
             summary := none } := by
  obtain ⟨i, hi, heq⟩ := List.mem_iff_getElem.mp h
  have hk : i < k := by
    have := hi
    rwa [buildClusters_length] at this
  exact ⟨i, hk, by rw [← heq, buildClusters_getElem]⟩

theorem flatten_map_nil {α β : Type _} (l : List α) :
    (l.map (fun _ => ([] : List β))).flatten = [] := by
  induction l with
  | nil => rfl
  | cons x xs ih => simp [ih]

theorem bucketsSkip (c : Chunk) (rest : List Chunk) (l0 : Int)
    (hc : c.cluster_id = some l0) :
    ∀ (cids : List Int), cids.count l0 = 0 →
    cids.map (fun cid =>
        ((c :: rest).filter (fun x => x.cluster_id = some cid)).map (·.chunk_id)) =
      cids.map (fun cid =>
        (rest.filter (fun x => x.cluster_id = some cid)).map (·.chunk_id))
  | [], _ => rfl
  | cid :: cids, h => by
    have hne : l0 ≠ cid := by
      intro habs
      rw [habs, List.count_cons_self] at h
      omega
    have hcount : cids.count l0 = 0 := by
      rw [List.count_cons] at h
      omega
    have hfilter : (c :: rest).filter (fun x => x.cluster_id = some cid) =
        rest.filter (fun x => x.cluster_id = some cid) := by
      rw [List.filter_cons]
      simp [hc, hne]
    rw [List.map_cons, List.map_cons, hfilter, bucketsSkip c rest l0 hc cids hcount]

theorem bucketsStep (c : Chunk) (rest : List Chunk) (l0 : Int)
    (hc : c.cluster_id = some l0) :
    ∀ (cids : List Int), cids.count l0 = 1 →
    ((cids.map (fun cid =>
        ((c :: rest).filter (fun x => x.cluster_id = some cid)).map (·.chunk_id))).flatten).Perm
      (c.chunk_id ::
        (cids.map (fun cid =>
          (rest.filter (fun x => x.cluster_id = some cid)).map (·.chunk_id))).flatten)
  | [], h => by simp at h
  | cid :: cids, h => by
    by_cases heq : l0 = cid
    · subst heq
      have hcount0 : cids.count l0 = 0 := by
        rw [List.count_cons_self] at h
        omega
      have hfilter : (c :: rest).filter (fun x => x.cluster_id = some l0) =
          c :: rest.filter (fun x => x.cluster_id = some l0) := by
        rw [List.filter_cons]
        simp [hc]
      rw [List.map_cons, List.map_cons, hfilter, bucketsSkip c rest l0 hc cids hcount0]
      simp
    · have hne : l0 ≠ cid := heq
      have hcount : cids.count l0 = 1 := by
        rw [List.count_cons] at h
        have hfalse : (cid == l0) = false := by
          simp [Ne.symm hne]
        rw [hfalse] at h
        simpa using h
      have hfilter : (c :: rest).filter (fun x => x.cluster_id = some cid) =
          rest.filter (fun x => x.cluster_id = some cid) := by
        rw [List.filter_cons]
        simp [hc, hne]
      rw [List.map_cons, List.map_cons, hfilter]
      simp only [List.flatten_cons]
      exact (List.Perm.append_left _ (bucketsStep c rest l0 hc cids hcount)).trans
        List.perm_middle

theorem bucketsPerm : ∀ (chunks2 : List Chunk) (cids : List Int),
    (∀ c ∈ chunks2, ∃ l : Int, c.cluster_id = some l ∧ cids.count l = 1) →
    ((cids.map (fun cid =>
        (chunks2.filter (fun c => c.cluster_id = some cid)).map (·.chunk_id))).flatten).Perm
      (chunks2.map (·.chunk_id))
  | [], cids, _ => by simp [flatten_map_nil]
  | c :: rest, cids, h => by
    obtain ⟨l0, hc, hcount⟩ := h c (by simp)
    have hrest : ∀ c2 ∈ rest, ∃ l, c2.cluster_id = some l ∧ cids.count l = 1 :=
      fun c2 hc2 => h c2 (by simp [hc2])
    exact (bucketsStep c rest l0 hc cids hcount).trans
      ((bucketsPerm rest cids hrest).cons c.chunk_id)

theorem count_intRange (k : Nat) (l : Int) (h0 : 0 ≤ l) (hk : l < (k : Int)) :
    ((List.range k).map Int.ofNat).count l = 1 := by
  apply List.count_eq_one_of_mem
  · exact List.Nodup.map (fun a b hab => Int.ofNat.inj hab) (List.nodup_range k)
  · rw [List.mem_map]
    exact ⟨l.toNat, by rw [List.mem_range]; omega,
      by rw [Int.ofNat_eq_coe]; omega⟩

theorem length_le_sum_of_one_le : ∀ (ns : List Nat), (∀ x ∈ ns, 1 ≤ x) →
    ns.length ≤ ns.sum
  | [], _ => le_refl 0
  | n :: ns, h => by
    have hrec := length_le_sum_of_one_le ns (fun x hx => h x (by simp [hx]))
    have h1 := h n (by simp)
    simp only [List.length_cons, List.sum_cons]
    omega

theorem all_one_of_sum_eq_length : ∀ (ns : List Nat), (∀ x ∈ ns, 1 ≤ x) →
    ns.sum = ns.length → ∀ x ∈ ns, x = 1
  | [], _, _, x, hx => absurd hx (by simp)
  | n :: ns, h1, h2, x, hx => by
    have hrest1 : ∀ y ∈ ns, 1 ≤ y := fun y hy => h1 y (by simp [hy])
    have hlen := length_le_sum_of_one_le ns hrest1
    have hn := h1 n (by simp)
    simp only [List.sum_cons, List.length_cons] at h2
    have hsum : ns.sum = ns.length := by omega
    rcases List.mem_cons.mp hx with h | h
    · subst h
      omega
    · exact all_one_of_sum_eq_length ns hrest1 hsum x h

theorem member_bucket_iff (chunks2 : List Chunk)
    (hnd : (chunks2.map (·.chunk_id)).Nodup) (c2 : Chunk) (hc2 : c2 ∈ chunks2)
    (cid : Int) :
    c2.chunk_id ∈
        ((chunks2.filter (fun c => c.cluster_id = some cid)).map (·.chunk_id)) ↔
      c2.cluster_id = some cid := by
  constructor
  · intro h
    obtain ⟨c3, hc3mem, hc3id⟩ := List.mem_map.mp h
    have hc3mem2 := List.mem_of_mem_filter hc3mem
    have hp := List.of_mem_filter hc3mem
    have he : c3 = c2 := List.inj_on_of_nodup_map hnd hc3mem2 hc2 hc3id
    rw [← he]
    simpa using hp
  · intro h
    exact List.mem_map_of_mem _ (List.mem_filter.mpr ⟨hc2, by simp [h]⟩)

theorem compute_centroid_mean (embs : List (List Rat)) (dim : Nat)
    (hdim : ∀ v ∈ embs, v.length = dim) (hne : embs ≠ []) :
    (compute_centroid embs).length = dim ∧
      ∀ j, j < dim → (compute_centroid embs).getD j 0 =
        (embs.map (fun v => v.getD j 0)).sum / (embs.length : Rat) := by
  match embs, hne with
  | e0 :: rest, _ =>
    have h0 : e0.length = dim := hdim e0 (by simp)
    constructor
    · simp [compute_centroid, h0]
    · intro j hj
      simp only [compute_centroid, h0]
      rw [List.getD_eq_getElem?_getD, List.getElem?_map, List.getElem?_range hj]
      simp

/-- C6 (amended): for the empty chunk list `cluster_chunks` returns an empty
cluster list with no mutation; `compute_centroid` of an empty member list is
empty and otherwise is the coordinate-wise mean; and for every non-empty
chunk list whose black-box labeler output assigns each chunk one label in
`[0, effectiveK)` (with `effectiveK = min(k, len(chunks))`) and whose chunk
ids are distinct, `cluster_chunks` succeeds with exactly `effectiveK`
clusters carrying ids `0..effectiveK-1`, chunk identities unchanged, each
cluster's `chunk_ids` a subsequence of the chunks in original order, the
clusters' `chunk_ids` jointly a permutation of all chunk ids (a partition,
every id exactly once), membership matching each chunk's assigned
`cluster_id`, and each centroid computed from exactly the member chunks'
embeddings.  The no-empty-cluster / one-chunk-per-cluster conjunct
additionally requires the labeler to use every label in `[0, effectiveK)`
(the amendment the counterexample below forces). -/
theorem cluster_partition_spec (sk : SkLearn) (eng : ClusterEngine) (chunks : List Chunk)
    (labels : List Int)
    (hml : rawLabels sk eng (chunks.map (·.embedding))
      (min eng.num_clusters chunks.length) = .ok labels)
    (hlen : labels.length = chunks.length)
    (hrange : ∀ l ∈ labels, 0 ≤ l ∧ l < Int.ofNat (min eng.num_clusters chunks.length))
    (hids : (chunks.map (·.chunk_id)).Nodup) :
    cluster_chunks sk eng [] = .ok ([], []) ∧
    compute_centroid [] = [] ∧
    (∀ (embs : List (List Rat)) (dim : Nat), (∀ v ∈ embs, v.length = dim) → embs ≠ [] →
      (compute_centroid embs).length = dim ∧
        ∀ j, j < dim → (compute_centroid embs).getD j 0 =
          (embs.map (fun v => v.getD j 0)).sum / (embs.length : Rat)) ∧
    (chunks ≠ [] →
      ∃ chunks2 clusters, cluster_chunks sk eng chunks = .ok (chunks2, clusters) ∧
        chunks2.map (·.chunk_id) = chunks.map (·.chunk_id) ∧
        clusters.length = min eng.num_clusters chunks.length ∧
        (∀ i (hi : i < clusters.length), (clusters.get ⟨i, hi⟩).cluster_id = Int.ofNat i) ∧
        (∀ cl ∈ clusters, cl.chunk_ids.Sublist (chunks.map (·.chunk_id))) ∧
        ((clusters.map (·.chunk_ids)).flatten).Perm (chunks.map (·.chunk_id)) ∧
        (∀ c2 ∈ chunks2, ∀ cl ∈ clusters,
          (c2.chunk_id ∈ cl.chunk_ids ↔ c2.cluster_id = some cl.cluster_id)) ∧
        (∀ cl ∈ clusters, cl.centroid = some (compute_centroid
          ((chunks2.filter (fun c => c.chunk_id ∈ cl.chunk_ids)).map (·.embedding)))) ∧
        ((∀ j : Nat, j < min eng.num_clusters chunks.length → Int.ofNat j ∈ labels) →
          (∀ cl ∈ clusters, cl.chunk_ids ≠ []) ∧
          (chunks.length < eng.num_clusters →
            ∀ cl ∈ clusters, cl.chunk_ids.length = 1))) := by
  refine ⟨rfl, rfl, fun embs dim hdim hne => compute_centroid_mean embs dim hdim hne, ?_⟩
  intro hne
  have hk : min eng.num_clusters chunks.length = min eng.num_clusters chunks.length := rfl
  -- run the function
  have hrun : cluster_chunks sk eng chunks =
      .ok (assignLabels chunks labels,
        buildClusters (assignLabels chunks labels) (min eng.num_clusters chunks.length)) := by
    cases chunks with
    | nil => exact absurd rfl hne
    | cons c0 cs =>
      simp only [cluster_chunks]
      rw [hml]
  set k := min eng.num_clusters chunks.length with hkdef
  set chunks2 := assignLabels chunks labels with hc2def
  have hidmap : chunks2.map (·.chunk_id) = chunks.map (·.chunk_id) :=
    assignLabels_map_id chunks labels hlen
  have hnd2 : (chunks2.map (·.chunk_id)).Nodup := by
    rw [hidmap]
    exact hids
  have hlen2 : chunks2.length = chunks.length := by
    rw [hc2def]
    unfold assignLabels
    rw [List.length_zipWith, hlen, min_self]
  have hcount : ∀ c2 ∈ chunks2, ∃ l : Int, c2.cluster_id = some l ∧
      (((List.range k).map Int.ofNat).count l = 1) := by
    intro c2 hc2
    obtain ⟨l, hlmem, he⟩ := assignLabels_mem chunks labels c2 hc2
    obtain ⟨h0, hkk⟩ := hrange l hlmem
    exact ⟨l, he, count_intRange k l h0 hkk⟩
  have hmapids : (buildClusters chunks2 k).map (·.chunk_ids) =
      ((List.range k).map Int.ofNat).map (fun cid =>
        (chunks2.filter (fun c => c.cluster_id = some cid)).map (·.chunk_id)) := by
    unfold buildClusters
    rw [List.map_map, List.map_map]
    apply List.map_congr_left
    intro a _
    rfl
  have hperm : (((buildClusters chunks2 k).map (·.chunk_ids)).flatten).Perm
      (chunks.map (·.chunk_id)) := by
    rw [hmapids]
    exact (bucketsPerm chunks2 _ hcount).trans (hidmap ▸ List.Perm.refl _)
  have hmemiff : ∀ c2 ∈ chunks2, ∀ cl ∈ buildClusters chunks2 k,
      (c2.chunk_id ∈ cl.chunk_ids ↔ c2.cluster_id = some cl.cluster_id) := by
    intro c2 hc2 cl hcl
    obtain ⟨cid, hcid, heq⟩ := buildClusters_mem chunks2 k cl hcl
    rw [heq]
    exact member_bucket_iff chunks2 hnd2 c2 hc2 (Int.ofNat cid)
  have hbne : ∀ (hsurj : ∀ j : Nat, j < k → Int.ofNat j ∈ labels),
      ∀ cl ∈ buildClusters chunks2 k, cl.chunk_ids ≠ [] := by
    intro hsurj cl hcl
    obtain ⟨cid, hcid, heq⟩ := buildClusters_mem chunks2 k cl hcl
    obtain ⟨i, hil, hleq⟩ := List.mem_iff_getElem.mp (hsurj cid hcid)
    have hic : i < chunks.length := by omega
    have hi2 : i < chunks2.length := by omega
    have hcid2 : (getElem chunks2 i hi2).cluster_id = some (Int.ofNat cid) := by
      have h4 : getElem chunks2 i hi2 = { getElem chunks i hic with
          cluster_id := some (getElem labels i hil) } := List.getElem_zipWith
      rw [h4, hleq]
    have hmem2 : (getElem chunks2 i hi2).chunk_id ∈
        (chunks2.filter (fun c => c.cluster_id = some (Int.ofNat cid))).map (·.chunk_id) :=
      List.mem_map_of_mem _ (List.mem_filter.mpr ⟨List.getElem_mem hi2, by simp [hcid2]⟩)
    rw [heq]
    exact List.ne_nil_of_mem hmem2
  refine ⟨chunks2, buildClusters chunks2 k, hrun, hidmap, buildClusters_length chunks2 k,
    ?_, ?_, hperm, hmemiff, ?_, ?_⟩
  · intro i hi
    rw [List.get_eq_getElem, buildClusters_getElem]
  · intro cl hcl
    obtain ⟨cid, hcid, heq⟩ := buildClusters_mem chunks2 k cl hcl
    rw [heq, ← hidmap]
    exact List.Sublist.map _ (List.filter_sublist _)
  · intro cl hcl
    obtain ⟨cid, hcid, heq⟩ := buildClusters_mem chunks2 k cl hcl
    rw [heq]
    have hfeq : chunks2.filter (fun c =>
        c.chunk_id ∈ (chunks2.filter
          (fun c => c.cluster_id = some (Int.ofNat cid))).map (·.chunk_id)) =
        chunks2.filter (fun c => c.cluster_id = some (Int.ofNat cid)) := by
      apply List.filter_congr
      intro x hx
      exact decide_eq_decide.mpr (member_bucket_iff chunks2 hnd2 x hx (Int.ofNat cid))
    show some (compute_centroid _) = some (compute_centroid _)
    rw [hfeq]
  · intro hsurj
    refine ⟨hbne hsurj, ?_⟩
    intro hklt cl hcl
    have hkeq : k = chunks.length := by
      rw [hkdef]
      omega
    have hsum : ((buildClusters chunks2 k).map (fun cl => cl.chunk_ids.length)).sum =
        chunks.length := by
      have h1 := hperm.length_eq
      rw [List.length_flatten] at h1
      rw [List.map_map] at h1
      simpa using h1
    have hlen3 : ((buildClusters chunks2 k).map (fun cl => cl.chunk_ids.length)).length =
        chunks.length := by
      rw [List.length_map, buildClusters_length, hkeq]
    have hone : ∀ x ∈ (buildClusters chunks2 k).map (fun cl => cl.chunk_ids.length),
        1 ≤ x := by
      intro x hx
      obtain ⟨cl2, hcl2, hx2⟩ := List.mem_map.mp hx
      have := hbne hsurj cl2 hcl2
      rw [← hx2]
      rcases Nat.eq_zero_or_pos cl2.chunk_ids.length with h | h
      · exact absurd (List.length_eq_zero.mp h) this
      · exact h
    have := all_one_of_sum_eq_length _ hone (by rw [hsum, hlen3])
      cl.chunk_ids.length (List.mem_map_of_mem _ hcl)
    exact this

/-- C6 counterexample: the claim as stated asserts, under only the
hypothesis that the labeler stays inside `[0, effectiveK)`, that no cluster
is empty when `k` exceeds the chunk count.  With `k = 3`, two chunks and a
(perfectly in-range) labeler that maps both rows to label 0, `effectiveK =
2`, the labels `[0, 0]` satisfy the claim's hypothesis, `k` exceeds the
chunk count, yet cluster 1 is empty — so that conjunct is false without the
surjectivity amendment. -/
theorem cluster_partition_cex :
    (∀ l ∈ skConst.kmeansFit (min 3 2) 42 10
        ([(⟨0, "a.py", 1, 1, 0, "x", [], none⟩ : Chunk),
          (⟨1, "b.py", 1, 1, 0, "y", [], none⟩ : Chunk)].map (·.embedding)),
      0 ≤ l ∧ l < Int.ofNat (min 3 2)) ∧
    (2 : Nat) < 3 ∧
    ∃ chunks2 clusters,
      cluster_chunks skConst ⟨3, "kmeans", 42⟩
        [(⟨0, "a.py", 1, 1, 0, "x", [], none⟩ : Chunk),
          (⟨1, "b.py", 1, 1, 0, "y", [], none⟩ : Chunk)] = .ok (chunks2, clusters) ∧
      clusters.map Cluster.chunk_ids = [[0, 1], []] := by
  refine ⟨by decide, by decide, _, _, rfl, by decide⟩

theorem cluster_partition_spec_witness :
    rawLabels skConst ⟨2, "kmeans", 42⟩
      ([(⟨0, "a.py", 1, 1, 0, "x", [], none⟩ : Chunk)].map (·.embedding)) (min 2 1) =
        .ok [0] ∧
    ([0] : List Int).length = [(⟨0, "a.py", 1, 1, 0, "x", [], none⟩ : Chunk)].length ∧
    (∀ l ∈ ([0] : List Int), 0 ≤ l ∧ l < Int.ofNat (min 2 1)) ∧
    ([(⟨0, "a.py", 1, 1, 0, "x", [], none⟩ : Chunk)].map (·.chunk_id)).Nodup ∧
    cluster_chunks skConst ⟨2, "kmeans", 42⟩ [] = .ok ([], []) :=
  ⟨rfl, rfl, by decide, by decide,
   (cluster_partition_spec skConst ⟨2, "kmeans", 42⟩
     [(⟨0, "a.py", 1, 1, 0, "x", [], none⟩ : Chunk)] [0] rfl rfl
     (by decide) (by decide)).1⟩

/-- C8: for every non-empty chunk list and every method other than the two
supported strategies, `cluster_chunks` raises a `ValueError` identifying
the unknown method; there is no fallback and no chunk is mutated (no
updated chunk list is produced). -/
theorem cluster_unknown_method_spec (sk : SkLearn) (eng : ClusterEngine)
    (chunks : List Chunk) (hne : chunks ≠ []) (h1 : eng.method ≠ "kmeans")
    (h2 : eng.method ≠ "hierarchical") :
    cluster_chunks sk eng chunks =
      .error (.valueError ("Unknown clustering method: " ++ eng.method)) := by
  match chunks, hne with
  | c :: cs, _ =>
    simp [cluster_chunks, rawLabels, h1, h2]

theorem cluster_unknown_method_spec_witness :
    ([(⟨0, "a.py", 1, 1, 0, "x", [], none⟩ : Chunk)] ≠ []) ∧
    (("dbscan" : String) ≠ "kmeans") ∧ (("dbscan" : String) ≠ "hierarchical") ∧
    cluster_chunks skConst ⟨5, "dbscan", 42⟩ [(⟨0, "a.py", 1, 1, 0, "x", [], none⟩ : Chunk)] =
      .error (.valueError ("Unknown clustering method: " ++ "dbscan")) :=
  ⟨by simp, by decide, by decide,
   cluster_unknown_method_spec skConst ⟨5, "dbscan", 42⟩ _ (by simp) (by decide) (by decide)⟩

set_option maxRecDepth 40000 in
/-- C1 counterexample: the claim says the project summary is a function of
the cluster summaries, run metrics and project schema alone, "regardless of
any other data such as the chunks' texts or file paths".  Here two runs
agree exactly on those three inputs (same clusters, same manifest, same
intent) and on the generation capability, but differ in one chunk's text —
and produce different project summaries, because the representative-sample
block feeds the chunk text into the merge prompt. -/
theorem summarize_project_cex :
    summarize_project genLen cexClusters [⟨0, "f.py", 1, 1, 0, "AA", [], some 0⟩]
        cexIntent cexManifest "m" ≠
      summarize_project genLen cexClusters [⟨0, "f.py", 1, 1, 0, "", [], some 0⟩]
        cexIntent cexManifest "m" := by
  intro h
  have hA : summarize_project genLen cexClusters [⟨0, "f.py", 1, 1, 0, "AA", [], some 0⟩]
      cexIntent cexManifest "m" =
      .ok (.obj [("n", .int (Int.ofNat (make_structured_project_prompt
        (clusterSummariesText cexClusters) (metricsText cexManifest)
        (samplesText cexClusters [⟨0, "f.py", 1, 1, 0, "AA", [], some 0⟩])
        (.obj [("n", Json.str "int")])).length))]) := rfl
  have hB : summarize_project genLen cexClusters [⟨0, "f.py", 1, 1, 0, "", [], some 0⟩]
      cexIntent cexManifest "m" =
      .ok (.obj [("n", .int (Int.ofNat (make_structured_project_prompt
        (clusterSummariesText cexClusters) (metricsText cexManifest)
        (samplesText cexClusters [⟨0, "f.py", 1, 1, 0, "", [], some 0⟩])
        (.obj [("n", Json.str "int")])).length))]) := rfl
  rw [hA, hB] at h
  simp only [Except.ok.injEq, Json.obj.injEq, List.cons.injEq, Prod.mk.injEq,
    Json.int.injEq, Int.ofNat.injEq, and_true, true_and] at h
  exact absurd h (by decide)

/-- C1 (amended): the project summary is a deterministic function of the
cluster summaries (their ids and field values, as rendered into the
cluster-summaries block), the manifest's run metrics, the intent's project
schema, and additionally the per-cluster representative samples (each
cluster's first member chunk: its file path and the first 500 characters of
its text) — treating the structured-generation capability as a fixed
deterministic function of its prompts and schema.  Two runs agreeing on
those four inputs produce the same project summary. -/
theorem summarize_project_deterministic (gen : GenCap) (model : String)
    (clusters1 clusters2 : List Cluster) (chunks1 chunks2 : List Chunk)
    (intent1 intent2 : IntentSpec) (m1 m2 : DocpackManifest)
    (hsum : clusterSummariesText clusters1 = clusterSummariesText clusters2)
    (hmet : metricsText m1 = metricsText m2)
    (hrep : samplesText clusters1 chunks1 = samplesText clusters2 chunks2)
    (hsch : intent1.project_schema = intent2.project_schema) :
    summarize_project gen clusters1 chunks1 intent1 m1 model =
      summarize_project gen clusters2 chunks2 intent2 m2 model := by
  unfold summarize_project
  rw [hsch]
  cases intent2.project_schema with
  | none => rfl
  | some sch => rw [hsum, hmet, hrep]

theorem summarize_project_deterministic_witness :
    clusterSummariesText cexClusters = clusterSummariesText cexClusters ∧
    samplesText cexClusters [] = samplesText cexClusters [] ∧
    summarize_project genLen cexClusters [] cexIntent cexManifest "m" =
      summarize_project genLen cexClusters [] cexIntent cexManifest "m" :=
  ⟨rfl, rfl,
   summarize_project_deterministic genLen "m" cexClusters cexClusters [] []
     cexIntent cexIntent cexManifest cexManifest rfl rfl rfl rfl⟩

/-- C9: for every intent that declares no project schema or that disallows
the global summary, project-level generation is never invoked: every
Docpack `apply_intent` produces has the empty object as its project
summary; and when the intent has no cluster schema either, `apply_intent`
succeeds outright — for every generation capability, which is then never
consulted — with the unchanged chunks and clusters, an empty project
summary, and no error: an explicitly valid terminal state. -/
theorem apply_intent_empty_project (gen : GenCap) (intent : IntentSpec)
    (chunks : List Chunk) (clusters : List Cluster) (manifest : DocpackManifest)
    (model : String)
    (hp : intent.project_schema = none ∨ intent.allow_global_summary = false) :
    (∀ d, apply_intent gen intent chunks clusters manifest model = .ok d →
      d.project_summary = Json.obj []) ∧
    (intent.cluster_schema = none →
      apply_intent gen intent chunks clusters manifest model =
        .ok { manifest := manifest, intent_spec := intent.to_dict, chunks := chunks,
              clusters := clusters, project_summary := Json.obj [],
              raw_files := none }) := by
  have hcond : (intent.has_project_schema && intent.allow_global_summary) = false := by
    rcases hp with h | h
    · simp [IntentSpec.has_project_schema, h]
    · simp [h]
  constructor
  · intro d hd
    unfold apply_intent at hd
    rw [hcond] at hd
    cases hres : clustersPhase gen intent chunks clusters model with
    | error e =>
      rw [hres] at hd
      exact absurd hd (by simp [Bind.bind, Except.bind])
    | ok cl2 =>
      rw [hres] at hd
      simp only [Bind.bind, Except.bind, if_neg, Bool.false_eq_true, ite_false,
        pure, Except.pure, Except.ok.injEq] at hd
      rw [← hd]
  · intro hcs
    unfold apply_intent clustersPhase
    rw [hcond]
    simp [IntentSpec.has_cluster_schema, hcs, Bind.bind, Except.bind, pure, Except.pure]

theorem apply_intent_empty_project_witness :
    ((⟨"i", "d", none, none, none, 10, false, true⟩ : IntentSpec).project_schema = none ∨
      (⟨"i", "d", none, none, none, 10, false, true⟩ : IntentSpec).allow_global_summary
        = false) ∧
    (∀ d, apply_intent genTrivial ⟨"i", "d", none, none, none, 10, false, true⟩ [] []
        cexManifest "m" = .ok d → d.project_summary = Json.obj []) ∧
    apply_intent genTrivial ⟨"i", "d", none, none, none, 10, false, true⟩ [] []
        cexManifest "m" =
      .ok { manifest := cexManifest,
            intent_spec := IntentSpec.to_dict ⟨"i", "d", none, none, none, 10, false, true⟩,
            chunks := [], clusters := [], project_summary := Json.obj [],
            raw_files := none } :=
  ⟨Or.inl rfl,
   (apply_intent_empty_project genTrivial ⟨"i", "d", none, none, none, 10, false, true⟩
     [] [] cexManifest "m" (Or.inl rfl)).1,
   (apply_intent_empty_project genTrivial ⟨"i", "d", none, none, none, 10, false, true⟩
     [] [] cexManifest "m" (Or.inl rfl)).2 rfl⟩

theorem schema_builder_spec_witness :
    pyLookup "topic" [("tags", Json.arr [])] = none ∧
    model_validate (build_model [("topic", .str "str"), ("tags", .arr [.str "str"]),
      ("note?", .str "str")]) (.obj [("tags", Json.arr [])]) = false ∧
    model_validate (build_model [("topic", .str "str"), ("tags", .arr [.str "str"]),
      ("note?", .str "str")]) (.obj [("topic", .str "T"), ("tags", .arr [.str "a"])]) = true ∧
    infer_type (.str "text") = .strT :=
  ⟨rfl,
   schema_builder_spec.2.1 [("tags", Json.arr [])] rfl,
   (schema_builder_spec.2.2.1 "T" [Json.str "a"]
     (by intro x hx; simp at hx; exact ⟨"a", hx⟩)).1,
   schema_builder_spec.2.2.2 "text" (by decide) (by decide) (by decide) (by decide) (by decide)⟩

theorem lexLtB_irrefl : ∀ l : List Char, lexLtB l l = false
  | [] => rfl
  | a :: as => by simp [lexLtB, lt_self_iff_false, lexLtB_irrefl as]

theorem lexLtB_asymm : ∀ l1 l2 : List Char,
    lexLtB l1 l2 = true → lexLtB l2 l1 = false
  | [], [] => by simp [lexLtB]
  | [], _ :: _ => fun _ => rfl
  | _ :: _, [] => by simp [lexLtB]
  | a :: as, b :: bs => by
    intro h
    simp only [lexLtB] at h ⊢
    by_cases hab : a < b
    · have hba : ¬ b < a := lt_asymm hab
      rw [if_neg hba, if_pos hab]
    · by_cases hba : b < a
      · rw [if_neg hab, if_pos hba] at h
        exact absurd h (by simp)
      · rw [if_neg hab, if_neg hba] at h
        rw [if_neg hba, if_neg hab]
        exact lexLtB_asymm as bs h

theorem lexLtB_trans : ∀ l1 l2 l3 : List Char,
    lexLtB l1 l2 = true → lexLtB l2 l3 = true → lexLtB l1 l3 = true
  | [], [], _ => by simp [lexLtB]
  | [], _ :: _, [] => by intro _ h2; exact absurd h2 (by simp [lexLtB])
  | [], _ :: _, _ :: _ => fun _ _ => rfl
  | _ :: _, [], _ => by simp [lexLtB]
  | _ :: _, _ :: _, [] => by intro _ h2; exact absurd h2 (by simp [lexLtB])
  | a :: as, b :: bs, c :: cs => by
    intro h1 h2
    simp only [lexLtB] at h1 h2 ⊢
    by_cases hab : a < b
    · by_cases hbc : b < c
      · rw [if_pos (lt_trans hab hbc)]
      · by_cases hcb : c < b
        · rw [if_neg hbc, if_pos hcb] at h2; exact absurd h2 (by simp)
        · have hbce : b = c := le_antisymm (not_lt.mp hcb) (not_lt.mp hbc)
          rw [← hbce, if_pos hab]
    · by_cases hba : b < a
      · rw [if_neg hab, if_pos hba] at h1; exact absurd h1 (by simp)
      · have habe : a = b := le_antisymm (not_lt.mp hba) (not_lt.mp hab)
        rw [if_neg hab, if_neg hba] at h1
        by_cases hbc : b < c
        · rw [habe, if_pos hbc]
        · by_cases hcb : c < b
          · rw [if_neg hbc, if_pos hcb] at h2; exact absurd h2 (by simp)
          · have hbce : b = c := le_antisymm (not_lt.mp hcb) (not_lt.mp hbc)
            rw [if_neg hbc, if_neg hcb] at h2
            have hac : ¬ a < c := by rw [habe, hbce]; exact lt_irrefl c
            have hca : ¬ c < a := by rw [habe, hbce]; exact lt_irrefl c
            rw [if_neg hac, if_neg hca]
            exact lexLtB_trans as bs cs h1 h2

theorem lexLtB_conn : ∀ l1 l2 : List Char,
    lexLtB l1 l2 = false → lexLtB l2 l1 = false → l1 = l2
  | [], [] => fun _ _ => rfl
  | [], _ :: _ => by simp [lexLtB]
  | _ :: _, [] => by intro _ h2; exact absurd h2 (by simp [lexLtB])
  | a :: as, b :: bs => by
    intro h1 h2
    simp only [lexLtB] at h1 h2
    by_cases hab : a < b
    · rw [if_pos hab] at h1; exact absurd h1 (by simp)
    · by_cases hba : b < a
      · rw [if_pos hba] at h2; exact absurd h2 (by simp)
      · have habe : a = b := le_antisymm (not_lt.mp hba) (not_lt.mp hab)
        rw [if_neg hab, if_neg hba] at h1
        rw [if_neg hba, if_neg hab] at h2
        rw [habe, lexLtB_conn as bs h1 h2]

theorem strLe_total (a b : String) : StrLe a b ∨ StrLe b a := by
  unfold StrLe strLtB
  cases hb : lexLtB b.data a.data
  · exact Or.inl rfl
  · exact Or.inr (lexLtB_asymm _ _ hb)

theorem strLe_trans (a b c : String) (h1 : StrLe a b) (h2 : StrLe b c) : StrLe a c := by
  unfold StrLe strLtB at h1 h2 ⊢
  cases hca : lexLtB c.data a.data
  · rfl
  · cases hab : lexLtB a.data b.data
    · have hd : a.data = b.data := lexLtB_conn _ _ hab h1
      rw [hd] at hca
      rw [h2] at hca
      exact absurd hca (by decide)
    · have hcb : lexLtB c.data b.data = true := lexLtB_trans _ _ _ hca hab
      rw [h2] at hcb
      exact absurd hcb (by decide)

theorem strLe_antisymm (a b : String) (h1 : StrLe a b) (h2 : StrLe b a) : a = b := by
  unfold StrLe strLtB at h1 h2
  have hd : a.data = b.data := lexLtB_conn _ _ h2 h1
  cases a; cases b; exact congrArg String.mk hd

theorem natDigitsAux_fuel : ∀ f1 f2 n : Nat, n ≤ f1 → n ≤ f2 →
    natDigitsAux f1 n = natDigitsAux f2 n := by
  intro f1
  induction f1 with
  | zero =>
    intro f2 n h1 _
    have hn : n = 0 := Nat.le_zero.mp h1
    subst hn
    cases f2 with
    | zero => rfl
    | succ f2 => simp [natDigitsAux]
  | succ f1 ih =>
    intro f2 n h1 h2
    by_cases hn : n < 10
    · cases f2 with
      | zero =>
        have hz : n = 0 := Nat.le_zero.mp h2
        subst hz
        simp [natDigitsAux]
      | succ f2 => simp [natDigitsAux, hn]
    · have hdiv : n / 10 < n := Nat.div_lt_self (by omega) (by omega)
      have hf2 : f2 ≠ 0 := by omega
      obtain ⟨f2p, rfl⟩ := Nat.exists_eq_succ_of_ne_zero hf2
      simp only [natDigitsAux, if_neg hn]
      rw [ih f2p (n / 10) (by omega) (by omega)]

theorem natDigits_lt10 (n : Nat) (h : n < 10) : natDigits n = [n] := by
  unfold natDigits
  cases n with
  | zero => rfl
  | succ m => simp [natDigitsAux, h]

theorem natDigits_ge10 (n : Nat) (h : 10 ≤ n) :
    natDigits n = natDigits (n / 10) ++ [n % 10] := by
  unfold natDigits
  obtain ⟨m, rfl⟩ : ∃ m, n = m + 1 := ⟨n - 1, by omega⟩
  simp only [natDigitsAux, if_neg (by omega : ¬ m + 1 < 10)]
  have hdiv : (m + 1) / 10 < m + 1 := Nat.div_lt_self (by omega) (by omega)
  rw [natDigitsAux_fuel m ((m + 1) / 10) ((m + 1) / 10) (by omega) le_rfl]

theorem digitsW_zero : ∀ w, digitsW w 0 = List.replicate w 0
  | 0 => rfl
  | w + 1 => by
    simp only [digitsW, Nat.zero_div, Nat.zero_mod, digitsW_zero w]
    rw [← List.replicate_succ']

theorem digitsW_spec : ∀ (w n : Nat), 1 ≤ w → n < 10 ^ w →
    digitsW w n = List.replicate (w - (natDigits n).length) 0 ++ natDigits n := by
  intro w
  induction w with
  | zero => omega
  | succ w ih =>
    intro n _ hn
    by_cases hn10 : n < 10
    · rw [digitsW, Nat.div_eq_of_lt hn10, Nat.mod_eq_of_lt hn10, digitsW_zero w,
        natDigits_lt10 n hn10]
      simp
    · have h10 : 10 ≤ n := not_lt.mp hn10
      have hw1 : 1 ≤ w := by
        rcases Nat.eq_zero_or_pos w with h0 | h1
        · subst h0; norm_num at hn; omega
        · exact h1
      have hdiv : n / 10 < 10 ^ w := by
        rw [Nat.div_lt_iff_lt_mul (by norm_num)]
        rw [← pow_succ]
        exact hn
      rw [digitsW, ih (n / 10) hw1 hdiv, natDigits_ge10 n h10]
      have hlen : (natDigits (n / 10) ++ [n % 10]).length
          = (natDigits (n / 10)).length + 1 := by simp
      rw [hlen]
      have hsub : w + 1 - ((natDigits (n / 10)).length + 1)
          = w - (natDigits (n / 10)).length := by omega
      rw [hsub, List.append_assoc]

theorem valW_append_digit (l : List Nat) (d : Nat) :
    valW (l ++ [d]) = 10 * valW l + d := by
  unfold valW
  rw [List.foldl_append]
  rfl

theorem valW_digitsW : ∀ (w n : Nat), n < 10 ^ w → valW (digitsW w n) = n := by
  intro w
  induction w with
  | zero =>
    intro n h
    rw [pow_zero] at h
    have hz : n = 0 := by omega
    subst hz
    rfl
  | succ w ih =>
    intro n h
    have hdiv : n / 10 < 10 ^ w := by
      rw [Nat.div_lt_iff_lt_mul (by norm_num)]
      rw [← pow_succ]
      exact h
    rw [digitsW, valW_append_digit, ih (n / 10) hdiv]
    exact Nat.div_add_mod n 10

theorem digitsW_length : ∀ w n : Nat, (digitsW w n).length = w
  | 0, _ => rfl
  | w + 1, n => by simp [digitsW, digitsW_length w (n / 10)]

theorem digitsW_lt10 : ∀ (w n : Nat), ∀ d ∈ digitsW w n, d < 10
  | 0, _ => by simp [digitsW]
  | w + 1, n => by
    intro d hd
    rw [digitsW] at hd
    rcases List.mem_append.mp hd with h | h
    · exact digitsW_lt10 w (n / 10) d h
    · have hdm : d = n % 10 := by simpa using h
      subst hdm
      exact Nat.mod_lt n (by norm_num)

theorem valW_foldl_shift : ∀ (l : List Nat) (a : Nat),
    l.foldl (fun x d => 10 * x + d) a = a * 10 ^ l.length + valW l
  | [], a => by simp [valW]
  | d :: t, a => by
    simp only [List.foldl_cons, List.length_cons]
    rw [valW_foldl_shift t (10 * a + d)]
    have hv : valW (d :: t) = d * 10 ^ t.length + valW t := by
      show List.foldl (fun x d2 => 10 * x + d2) (10 * 0 + d) t = _
      rw [valW_foldl_shift t (10 * 0 + d)]
      ring
    rw [hv]
    ring

theorem valW_cons (d : Nat) (t : List Nat) :
    valW (d :: t) = d * 10 ^ t.length + valW t := by
  show List.foldl (fun x d2 => 10 * x + d2) (10 * 0 + d) t = _
  rw [valW_foldl_shift t (10 * 0 + d)]
  ring

theorem valW_lt : ∀ l : List Nat, (∀ d ∈ l, d < 10) → valW l < 10 ^ l.length
  | [] => by simp [valW]
  | d :: t => by
    intro h
    have hd : d < 10 := h d (List.mem_cons_self d t)
    have ht : valW t < 10 ^ t.length :=
      valW_lt t (fun x hx => h x (List.mem_cons_of_mem _ hx))
    rw [valW_cons, List.length_cons]
    calc d * 10 ^ t.length + valW t < d * 10 ^ t.length + 10 ^ t.length := by omega
      _ = (d + 1) * 10 ^ t.length := by ring
      _ ≤ 10 * 10 ^ t.length := Nat.mul_le_mul_right _ (by omega)
      _ = 10 ^ (t.length + 1) := by rw [pow_succ]; ring

theorem digitChar_lt_iff (d1 d2 : Nat) (h1 : d1 < 10) (h2 : d2 < 10) :
    (digitChar d1 < digitChar d2) ↔ d1 < d2 := by
  interval_cases d1 <;> interval_cases d2 <;> decide

theorem lexLtB_digits : ∀ l1 l2 : List Nat, l1.length = l2.length →
    (∀ d ∈ l1, d < 10) → (∀ d ∈ l2, d < 10) →
    (lexLtB (l1.map digitChar) (l2.map digitChar) = true ↔ valW l1 < valW l2)
  | [], [] => by simp [lexLtB, valW]
  | [], _ :: _ => by intro h; simp at h
  | _ :: _, [] => by intro h; simp at h
  | a :: as, b :: bs => by
    intro hlen h1 h2
    have ha : a < 10 := h1 a (List.mem_cons_self a as)
    have hb : b < 10 := h2 b (List.mem_cons_self b bs)
    have hlen2 : as.length = bs.length := by simpa using hlen
    have has : valW as < 10 ^ bs.length := by
      rw [← hlen2]
      exact valW_lt as (fun d hd => h1 d (List.mem_cons_of_mem _ hd))
    have hbs : valW bs < 10 ^ bs.length :=
      valW_lt bs (fun d hd => h2 d (List.mem_cons_of_mem _ hd))
    simp only [List.map_cons, lexLtB]
    rw [valW_cons, valW_cons, hlen2]
    by_cases hab : digitChar a < digitChar b
    · have hab2 : a < b := (digitChar_lt_iff a b ha hb).mp hab
      rw [if_pos hab]
      refine iff_of_true rfl ?_
      calc a * 10 ^ bs.length + valW as < a * 10 ^ bs.length + 10 ^ bs.length := by omega
        _ = (a + 1) * 10 ^ bs.length := by ring
        _ ≤ b * 10 ^ bs.length := Nat.mul_le_mul_right _ (by omega)
        _ ≤ b * 10 ^ bs.length + valW bs := Nat.le_add_right _ _
    · by_cases hba : digitChar b < digitChar a
      · have hba2 : b < a := (digitChar_lt_iff b a hb ha).mp hba
        rw [if_neg hab, if_pos hba]
        refine iff_of_false (by simp) (Nat.lt_asymm ?_)
        calc b * 10 ^ bs.length + valW bs < b * 10 ^ bs.length + 10 ^ bs.length := by omega
          _ = (b + 1) * 10 ^ bs.length := by ring
          _ ≤ a * 10 ^ bs.length := Nat.mul_le_mul_right _ (by omega)
          _ ≤ a * 10 ^ bs.length + valW as := Nat.le_add_right _ _
      · have he : a = b := by
          have h1e : ¬ a < b := fun hl => hab ((digitChar_lt_iff a b ha hb).mpr hl)
          have h2e : ¬ b < a := fun hl => hba ((digitChar_lt_iff b a hb ha).mpr hl)
          omega
        subst he
        rw [if_neg hab, if_neg hba,
          lexLtB_digits as bs hlen2
            (fun d hd => h1 d (List.mem_cons_of_mem _ hd))
            (fun d hd => h2 d (List.mem_cons_of_mem _ hd))]
        omega

theorem zpad_data (w n : Nat) (hw : 1 ≤ w) (hn : n < 10 ^ w) :
    (zpad w n).data = (digitsW w n).map digitChar := by
  show zfill w ((natDigits n).map digitChar) = _
  unfold zfill
  rw [digitsW_spec w n hw hn, List.map_append, List.map_replicate, List.length_map]
  have h0 : digitChar 0 = '0' := by decide
  rw [h0]

theorem zpad_length (w n : Nat) (hw : 1 ≤ w) (hn : n < 10 ^ w) :
    (zpad w n).data.length = w := by
  rw [zpad_data w n hw hn, List.length_map, digitsW_length]

theorem zpad_lt (w a b : Nat) (hw : 1 ≤ w) (ha : a < 10 ^ w) (hb : b < 10 ^ w) :
    (lexLtB (zpad w a).data (zpad w b).data = true) ↔ a < b := by
  rw [zpad_data w a hw ha, zpad_data w b hw hb,
    lexLtB_digits _ _ (by rw [digitsW_length, digitsW_length]) (digitsW_lt10 w a)
      (digitsW_lt10 w b),
    valW_digitsW w a ha, valW_digitsW w b hb]

theorem zpadInt_nonneg (w : Nat) (i : Int) (h : 0 ≤ i) :
    zpadInt w i = zpad w i.toNat := by
  unfold zpadInt
  rw [if_neg (by omega : ¬ i < 0)]

theorem strData_append (a b : String) : (a ++ b).data = a.data ++ b.data := rfl

theorem lexLtB_pref : ∀ (p x y : List Char), lexLtB (p ++ x) (p ++ y) = lexLtB x y
  | [], _, _ => rfl
  | c :: p, x, y => by
    simp only [List.cons_append, lexLtB, lt_self_iff_false, if_false]
    exact lexLtB_pref p x y

theorem lexLtB_append_of_lt : ∀ (x y s t : List Char), x.length = y.length →
    lexLtB x y = true → lexLtB (x ++ s) (y ++ t) = true
  | [], [], _, _ => by simp [lexLtB]
  | [], _ :: _, _, _ => by intro h; simp at h
  | _ :: _, [], _, _ => by intro h; simp at h
  | a :: xs, b :: ys, s, t => by
    intro hlen h
    have hlen2 : xs.length = ys.length := by simpa using hlen
    simp only [List.cons_append, lexLtB] at h ⊢
    by_cases hab : a < b
    · rw [if_pos hab]
    · by_cases hba : b < a
      · rw [if_neg hab, if_pos hba] at h
        exact absurd h (by simp)
      · rw [if_neg hab, if_neg hba] at h ⊢
        exact lexLtB_append_of_lt xs ys s t hlen2 h

/-- Sort order of equal-width zero-padded names equals numeric order of the
embedded ids (for ids that fit in the width). -/
theorem padded_name_lt (P S : String) (w : Nat) (hw : 1 ≤ w) (a b : Int)
    (ha0 : 0 ≤ a) (ha : a.toNat < 10 ^ w) (hb0 : 0 ≤ b) (hb : b.toNat < 10 ^ w) :
    (strLtB (P ++ zpadInt w a ++ S) (P ++ zpadInt w b ++ S) = true) ↔ a < b := by
  unfold strLtB
  rw [zpadInt_nonneg w a ha0, zpadInt_nonneg w b hb0,
    strData_append, strData_append, strData_append, strData_append,
    List.append_assoc, List.append_assoc, lexLtB_pref]
  constructor
  · intro h
    by_contra hnot
    rcases lt_or_eq_of_le (not_lt.mp hnot) with hba | hba
    · have hlt : lexLtB (zpad w b.toNat).data (zpad w a.toNat).data = true :=
        (zpad_lt w b.toNat a.toNat hw hb ha).mpr (by omega)
      have h2 : lexLtB ((zpad w b.toNat).data ++ S.data)
          ((zpad w a.toNat).data ++ S.data) = true :=
        lexLtB_append_of_lt _ _ _ _
          (by rw [zpad_length w b.toNat hw hb, zpad_length w a.toNat hw ha]) hlt
      rw [lexLtB_asymm _ _ h2] at h
      exact absurd h (by decide)
    · have hab : a.toNat = b.toNat := by omega
      rw [hab, lexLtB_irrefl] at h
      exact absurd h (by decide)
  · intro h
    apply lexLtB_append_of_lt
    · rw [zpad_length w a.toNat hw ha, zpad_length w b.toNat hw hb]
    · exact (zpad_lt w a.toNat b.toNat hw ha hb).mpr (by omega)

theorem padded_name_ne (P S : String) (w : Nat) (hw : 1 ≤ w) (a b : Int)
    (ha0 : 0 ≤ a) (ha : a.toNat < 10 ^ w) (hb0 : 0 ≤ b) (hb : b.toNat < 10 ^ w)
    (hne : a ≠ b) : (P ++ zpadInt w a ++ S) ≠ (P ++ zpadInt w b ++ S) := by
  intro heq
  rcases lt_or_gt_of_ne hne with hlt | hlt
  · have h := (padded_name_lt P S w hw a b ha0 ha hb0 hb).mpr hlt
    rw [heq] at h
    unfold strLtB at h
    rw [lexLtB_irrefl] at h
    exact absurd h (by decide)
  · have h := (padded_name_lt P S w hw b a hb0 hb ha0 ha).mpr hlt
    rw [heq] at h
    unfold strLtB at h
    rw [lexLtB_irrefl] at h
    exact absurd h (by decide)

/-! ### Name facts for the five entry namespaces -/

theorem chunkRecName_pre (i : Int) : pyStartsWith (chunkRecName i) "chunks/" = true := by
  unfold chunkRecName pyStartsWith
  rw [strData_append, strData_append]
  rfl

theorem chunkRecName_not_clusters (i : Int) :
    pyStartsWith (chunkRecName i) "clusters/" = false := by
  unfold chunkRecName pyStartsWith
  rw [strData_append, strData_append]
  rfl

theorem chunkRecName_not_raw (i : Int) :
    pyStartsWith (chunkRecName i) "raw/" = false := by
  unfold chunkRecName pyStartsWith
  rw [strData_append, strData_append]
  rfl

theorem clusterRecName_pre (i : Int) :
    pyStartsWith (clusterRecName i) "clusters/" = true := by
  unfold clusterRecName pyStartsWith
  rw [strData_append, strData_append]
  rfl

theorem clusterRecName_not_chunks (i : Int) :
    pyStartsWith (clusterRecName i) "chunks/" = false := by
  unfold clusterRecName pyStartsWith
  rw [strData_append, strData_append]
  rfl

theorem clusterRecName_not_raw (i : Int) :
    pyStartsWith (clusterRecName i) "raw/" = false := by
  unfold clusterRecName pyStartsWith
  rw [strData_append, strData_append]
  rfl

theorem isPrefixOf_append_self : ∀ (p t : List Char), p.isPrefixOf (p ++ t) = true
  | [], _ => by simp [List.isPrefixOf]
  | a :: p, t => by simp [List.isPrefixOf, isPrefixOf_append_self p t]

theorem rawName_pre (p : String) : pyStartsWith ("raw/" ++ p) "raw/" = true := by
  unfold pyStartsWith
  rw [strData_append]
  exact isPrefixOf_append_self _ _

theorem rawName_not_chunks (p : String) : pyStartsWith ("raw/" ++ p) "chunks/" = false := by
  unfold pyStartsWith
  rw [strData_append]
  rfl

theorem rawName_not_clusters (p : String) :
    pyStartsWith ("raw/" ++ p) "clusters/" = false := by
  unfold pyStartsWith
  rw [strData_append]
  rfl

/-- Two names cannot coincide when a prefix holds of one and not the other. -/
theorem ne_of_pre (a b p : String) (h1 : pyStartsWith a p = true)
    (h2 : pyStartsWith b p = false) : a ≠ b := by
  intro he
  rw [he, h2] at h1
  exact absurd h1 (by decide)

theorem chunkRecName_inj (a b : Int) (ha0 : 0 ≤ a) (ha : a < 10000)
    (hb0 : 0 ≤ b) (hb : b < 10000) (hne : a ≠ b) : chunkRecName a ≠ chunkRecName b := by
  unfold chunkRecName
  exact padded_name_ne "chunks/chunk_" ".json" 4 (by norm_num) a b ha0
    (by have : (10 : Nat) ^ 4 = 10000 := by norm_num
        omega)
    hb0
    (by have : (10 : Nat) ^ 4 = 10000 := by norm_num
        omega)
    hne

theorem clusterRecName_inj (a b : Int) (ha0 : 0 ≤ a) (ha : a < 100)
    (hb0 : 0 ≤ b) (hb : b < 100) (hne : a ≠ b) : clusterRecName a ≠ clusterRecName b := by
  unfold clusterRecName
  exact padded_name_ne "clusters/cluster_" ".json" 2 (by norm_num) a b ha0
    (by have : (10 : Nat) ^ 2 = 100 := by norm_num
        omega)
    hb0
    (by have : (10 : Nat) ^ 2 = 100 := by norm_num
        omega)
    hne

theorem chunkRecName_lt (a b : Int) (ha0 : 0 ≤ a) (ha : a < 10000)
    (hb0 : 0 ≤ b) (hb : b < 10000) :
    (strLtB (chunkRecName a) (chunkRecName b) = true) ↔ a < b := by
  unfold chunkRecName
  exact padded_name_lt "chunks/chunk_" ".json" 4 (by norm_num) a b ha0
    (by have : (10 : Nat) ^ 4 = 10000 := by norm_num
        omega)
    hb0
    (by have : (10 : Nat) ^ 4 = 10000 := by norm_num
        omega)

theorem clusterRecName_lt (a b : Int) (ha0 : 0 ≤ a) (ha : a < 100)
    (hb0 : 0 ≤ b) (hb : b < 100) :
    (strLtB (clusterRecName a) (clusterRecName b) = true) ↔ a < b := by
  unfold clusterRecName
  exact padded_name_lt "clusters/cluster_" ".json" 2 (by norm_num) a b ha0
    (by have : (10 : Nat) ^ 2 = 100 := by norm_num
        omega)
    hb0
    (by have : (10 : Nat) ^ 2 = 100 := by norm_num
        omega)

/-! ### `zread` lookup lemmas -/

theorem find?_key (n : String) (v : ZEntry) : ∀ l : List (String × ZEntry),
    (n, v) ∈ l → (∀ e ∈ l, e.1 = n → e.2 = v) →
    l.find? (fun e => e.1 == n) = some (n, v)
  | [], hmem, _ => absurd hmem (List.not_mem_nil _)
  | (k, w) :: t, hmem, huniq => by
    by_cases hk : k = n
    · have hw : w = v := huniq (k, w) (List.mem_cons_self _ _) hk
      subst hk
      subst hw
      rw [List.find?_cons_of_pos]
      simp
    · have hmem2 : (n, v) ∈ t := by
        rcases List.mem_cons.mp hmem with he | ht
        · exact absurd (congrArg Prod.fst he).symm hk
        · exact ht
      rw [List.find?_cons_of_neg]
      · exact find?_key n v t hmem2 (fun e he h => huniq e (List.mem_cons_of_mem _ he) h)
      · simp [hk]

theorem zread_unique (entries : List (String × ZEntry)) (n : String) (v : ZEntry)
    (hmem : (n, v) ∈ entries) (huniq : ∀ e ∈ entries, e.1 = n → e.2 = v) :
    zread entries n = some v := by
  unfold zread
  rw [find?_key n v entries.reverse (List.mem_reverse.mpr hmem)
    (fun e he h => huniq e (List.mem_reverse.mp he) h)]
  rfl

theorem zread_absent (entries : List (String × ZEntry)) (n : String)
    (h : ∀ e ∈ entries, e.1 ≠ n) : zread entries n = none := by
  unfold zread
  rw [List.find?_eq_none.mpr (fun e he => by simp [h e (List.mem_reverse.mp he)])]
  rfl

/-! ### Record round-trips -/

theorem exbind_ok {α β : Type} (a : α) (f : α → Except DpErr β) :
    (Except.ok a >>= f) = f a := rfl

theorem dpPure {α : Type} (a : α) : (pure a : Except DpErr α) = Except.ok a := rfl

theorem mapM_loop_parseFloat : ∀ (l acc : List Rat),
    List.mapM.loop parseFloat (l.map Json.float) acc = .ok (acc.reverse ++ l)
  | [], acc => by simp [List.mapM.loop, dpPure]
  | q :: t, acc => by
    simp [List.mapM.loop, mapM_loop_parseFloat t (q :: acc), parseFloat, exbind_ok]

theorem mapM_loop_parseInt : ∀ (l acc : List Int),
    List.mapM.loop parseInt (l.map Json.int) acc = .ok (acc.reverse ++ l)
  | [], acc => by simp [List.mapM.loop, dpPure]
  | n :: t, acc => by
    simp [List.mapM.loop, mapM_loop_parseInt t (n :: acc), parseInt, exbind_ok]

theorem chunk_rt (c : Chunk) : chunkFromJson (chunkToJson c) = .ok c := by
  obtain ⟨cid, fp, sl, el, tk, tx, emb, cl⟩ := c
  cases cl with
  | none =>
    simp [chunkFromJson, chunkToJson, reqField, pyLookup, parseStr, parseInt,
      parseFloatList, parseOptInt, optIntJson, mapM_loop_parseFloat, exbind_ok]
  | some v =>
    simp [chunkFromJson, chunkToJson, reqField, pyLookup, parseStr, parseInt,
      parseFloatList, parseOptInt, optIntJson, mapM_loop_parseFloat, exbind_ok]

theorem cluster_rt (cl : Cluster)
    (hsm : cl.summary = none ∨ ∃ kvs, cl.summary = some (Json.obj kvs)) :
    clusterFromJson (clusterToJson cl) = .ok cl := by
  obtain ⟨cid, ids, cen, sm⟩ := cl
  rcases hsm with hsm | ⟨kvs, hsm⟩ <;> simp only at hsm <;> subst hsm <;>
    cases cen <;>
      simp [clusterFromJson, clusterToJson, reqField, pyLookup, parseInt,
        parseIntList, parseOptFloatList, parseOptObj, mapM_loop_parseInt,
        mapM_loop_parseFloat, exbind_ok, Except.map]

theorem manifest_rt (m : DocpackManifest) :
    manifestFromJson (manifestToJson m) = .ok m := by
  obtain ⟨ca, dv, st, si, inm, idc, fc, cc, clc, tt, ed, irf⟩ := m
  simp [manifestFromJson, manifestToJson, reqField, optStrField, optBoolField,
    pyLookup, parseStr, parseInt, parseBool, exbind_ok]

theorem orderedInsert_map_chunk (c : Chunk) : ∀ l : List Chunk,
    List.orderedInsert StrLe (chunkRecName c.chunk_id)
        (l.map (fun x => chunkRecName x.chunk_id))
      = (List.orderedInsert chunkNameLe c l).map (fun x => chunkRecName x.chunk_id)
  | [] => rfl
  | b :: t => by
    simp only [List.map_cons, List.orderedInsert]
    by_cases h : chunkNameLe c b
    · rw [if_pos h,
        if_pos (show StrLe (chunkRecName c.chunk_id) (chunkRecName b.chunk_id) from h),
        List.map_cons, List.map_cons]
    · rw [if_neg h,
        if_neg (show ¬ StrLe (chunkRecName c.chunk_id) (chunkRecName b.chunk_id) from h),
        List.map_cons, orderedInsert_map_chunk c t]

theorem insertionSort_map_chunk : ∀ l : List Chunk,
    List.insertionSort StrLe (l.map (fun x => chunkRecName x.chunk_id))
      = (List.insertionSort chunkNameLe l).map (fun x => chunkRecName x.chunk_id)
  | [] => rfl
  | c :: t => by
    simp only [List.map_cons, List.insertionSort]
    rw [insertionSort_map_chunk t, orderedInsert_map_chunk c]

theorem orderedInsert_map_cluster (c : Cluster) : ∀ l : List Cluster,
    List.orderedInsert StrLe (clusterRecName c.cluster_id)
        (l.map (fun x => clusterRecName x.cluster_id))
      = (List.orderedInsert clusterNameLe c l).map (fun x => clusterRecName x.cluster_id)
  | [] => rfl
  | b :: t => by
    simp only [List.map_cons, List.orderedInsert]
    by_cases h : clusterNameLe c b
    · rw [if_pos h,
        if_pos (show StrLe (clusterRecName c.cluster_id) (clusterRecName b.cluster_id) from h),
        List.map_cons, List.map_cons]
    · rw [if_neg h,
        if_neg (show ¬ StrLe (clusterRecName c.cluster_id) (clusterRecName b.cluster_id) from h),
        List.map_cons, orderedInsert_map_cluster c t]

theorem insertionSort_map_cluster : ∀ l : List Cluster,
    List.insertionSort StrLe (l.map (fun x => clusterRecName x.cluster_id))
      = (List.insertionSort clusterNameLe l).map (fun x => clusterRecName x.cluster_id)
  | [] => rfl
  | c :: t => by
    simp only [List.map_cons, List.insertionSort]
    rw [insertionSort_map_cluster t, orderedInsert_map_cluster c]

/-! ### The names of a written archive, by namespace -/

theorem namesWith_append (l1 l2 : List (String × ZEntry)) (p : String) :
    namesWith (l1 ++ l2) p = namesWith l1 p ++ namesWith l2 p := by
  unfold namesWith
  rw [List.map_append, List.filter_append]

theorem namesWith_map_true {α : Type} (f : α → String × ZEntry) (l : List α) (p : String)
    (h : ∀ a ∈ l, pyStartsWith (f a).1 p = true) :
    namesWith (l.map f) p = l.map (fun a => (f a).1) := by
  unfold namesWith
  rw [List.map_map, List.filter_eq_self.mpr]
  · rfl
  · intro n hn
    obtain ⟨a, ha, rfl⟩ := List.mem_map.mp hn
    exact h a ha

theorem namesWith_map_false {α : Type} (f : α → String × ZEntry) (l : List α) (p : String)
    (h : ∀ a ∈ l, pyStartsWith (f a).1 p = false) :
    namesWith (l.map f) p = [] := by
  unfold namesWith
  rw [List.map_map]
  apply List.filter_eq_nil_iff.mpr
  intro n hn
  obtain ⟨a, ha, rfl⟩ := List.mem_map.mp hn
  simp [h a ha]

/-- Membership in the conditional `raw/` segment of a written archive. -/
theorem mem_rawSeg (d : Docpack) (e : String × ZEntry)
    (he : e ∈ (if d.manifest.includes_raw_files && rawFilesTruthy d.raw_files then
      (d.raw_files.getD []).map (fun pb => ("raw/" ++ pb.1, ZEntry.bytes pb.2))
    else [])) : ∃ p b, e = ("raw/" ++ p, ZEntry.bytes b) := by
  by_cases hc : (d.manifest.includes_raw_files && rawFilesTruthy d.raw_files) = true
  · rw [if_pos hc] at he
    obtain ⟨pb, _, rfl⟩ := List.mem_map.mp he
    exact ⟨pb.1, pb.2, rfl⟩
  · rw [if_neg hc] at he
    exact absurd he (List.not_mem_nil e)

theorem namesWith_rawSeg_empty (d : Docpack) (p : String)
    (hp : ∀ q : String, pyStartsWith ("raw/" ++ q) p = false) :
    namesWith (if d.manifest.includes_raw_files && rawFilesTruthy d.raw_files then
      (d.raw_files.getD []).map (fun pb => ("raw/" ++ pb.1, ZEntry.bytes pb.2))
    else []) p = [] := by
  by_cases hc : (d.manifest.includes_raw_files && rawFilesTruthy d.raw_files) = true
  · rw [if_pos hc]
    exact namesWith_map_false _ _ _ (fun pb _ => hp pb.1)
  · rw [if_neg hc]
    rfl

theorem namesWith_write_chunks (d : Docpack) :
    namesWith (docpackWrite d) "chunks/"
      = d.chunks.map (fun c => chunkRecName c.chunk_id) := by
  unfold docpackWrite
  rw [namesWith_append, namesWith_append, namesWith_append, namesWith_append]
  have hA : namesWith [("manifest.json", ZEntry.json (manifestToJson d.manifest)),
      ("intent.yaml", ZEntry.yaml d.intent_spec)] "chunks/" = [] := rfl
  have hD : namesWith [("project_summary.json", ZEntry.json d.project_summary)]
      "chunks/" = [] := rfl
  rw [hA, hD,
    namesWith_map_true _ _ _ (fun c _ => chunkRecName_pre c.chunk_id),
    namesWith_map_false _ _ _ (fun cl _ => clusterRecName_not_chunks cl.cluster_id),
    namesWith_rawSeg_empty d "chunks/" rawName_not_chunks]
  simp

theorem namesWith_write_clusters (d : Docpack) :
    namesWith (docpackWrite d) "clusters/"
      = d.clusters.map (fun cl => clusterRecName cl.cluster_id) := by
  unfold docpackWrite
  rw [namesWith_append, namesWith_append, namesWith_append, namesWith_append]
  have hA : namesWith [("manifest.json", ZEntry.json (manifestToJson d.manifest)),
      ("intent.yaml", ZEntry.yaml d.intent_spec)] "clusters/" = [] := rfl
  have hD : namesWith [("project_summary.json", ZEntry.json d.project_summary)]
      "clusters/" = [] := rfl
  rw [hA, hD,
    namesWith_map_false _ _ _ (fun c _ => chunkRecName_not_clusters c.chunk_id),
    namesWith_map_true _ _ _ (fun cl _ => clusterRecName_pre cl.cluster_id),
    namesWith_rawSeg_empty d "clusters/" rawName_not_clusters]
  simp

/-! ### By-name lookups on a written archive -/

theorem zw_manifest (d : Docpack) :
    zread (docpackWrite d) "manifest.json"
      = some (.json (manifestToJson d.manifest)) := by
  apply zread_unique
  · exact List.mem_append.mpr (Or.inl (List.mem_append.mpr (Or.inl
      (List.mem_append.mpr (Or.inl (List.mem_append.mpr (Or.inl
        (List.mem_cons_self _ _))))))))
  · intro e he h1
    unfold docpackWrite at he
    rcases List.mem_append.mp he with h4 | hE
    · rcases List.mem_append.mp h4 with h3 | hD
      · rcases List.mem_append.mp h3 with h2 | hC
        · rcases List.mem_append.mp h2 with hA | hB
          · rcases List.mem_cons.mp hA with rfl | hA2
            · rfl
            · rcases List.mem_cons.mp hA2 with rfl | hA3
              · simp at h1
              · exact absurd hA3 (List.not_mem_nil e)
          · obtain ⟨c, _, rfl⟩ := List.mem_map.mp hB
            exact absurd h1 (ne_of_pre _ _ "chunks/" (chunkRecName_pre _) (by decide))
        · obtain ⟨cl, _, rfl⟩ := List.mem_map.mp hC
          exact absurd h1 (ne_of_pre _ _ "clusters/" (clusterRecName_pre _) (by decide))
      · rcases List.mem_cons.mp hD with rfl | hD2
        · simp at h1
        · exact absurd hD2 (List.not_mem_nil e)
    · obtain ⟨p, b, rfl⟩ := mem_rawSeg d e hE
      exact absurd h1 (ne_of_pre _ _ "raw/" (rawName_pre p) (by decide))

theorem zw_intent (d : Docpack) :
    zread (docpackWrite d) "intent.yaml" = some (.yaml d.intent_spec) := by
  apply zread_unique
  · exact List.mem_append.mpr (Or.inl (List.mem_append.mpr (Or.inl
      (List.mem_append.mpr (Or.inl (List.mem_append.mpr (Or.inl
        (List.mem_cons.mpr (Or.inr (List.mem_cons_self _ _))))))))))
  · intro e he h1
    unfold docpackWrite at he
    rcases List.mem_append.mp he with h4 | hE
    · rcases List.mem_append.mp h4 with h3 | hD
      · rcases List.mem_append.mp h3 with h2 | hC
        · rcases List.mem_append.mp h2 with hA | hB
          · rcases List.mem_cons.mp hA with rfl | hA2
            · simp at h1
            · rcases List.mem_cons.mp hA2 with rfl | hA3
              · rfl
              · exact absurd hA3 (List.not_mem_nil e)
          · obtain ⟨c, _, rfl⟩ := List.mem_map.mp hB
            exact absurd h1 (ne_of_pre _ _ "chunks/" (chunkRecName_pre _) (by decide))
        · obtain ⟨cl, _, rfl⟩ := List.mem_map.mp hC
          exact absurd h1 (ne_of_pre _ _ "clusters/" (clusterRecName_pre _) (by decide))
      · rcases List.mem_cons.mp hD with rfl | hD2
        · simp at h1
        · exact absurd hD2 (List.not_mem_nil e)
    · obtain ⟨p, b, rfl⟩ := mem_rawSeg d e hE
      exact absurd h1 (ne_of_pre _ _ "raw/" (rawName_pre p) (by decide))

theorem zw_project (d : Docpack) :
    zread (docpackWrite d) "project_summary.json"
      = some (.json d.project_summary) := by
  apply zread_unique
  · exact List.mem_append.mpr (Or.inl (List.mem_append.mpr
      (Or.inr (List.mem_cons_self _ _))))
  · intro e he h1
    unfold docpackWrite at he
    rcases List.mem_append.mp he with h4 | hE
    · rcases List.mem_append.mp h4 with h3 | hD
      · rcases List.mem_append.mp h3 with h2 | hC
        · rcases List.mem_append.mp h2 with hA | hB
          · rcases List.mem_cons.mp hA with rfl | hA2
            · simp at h1
            · rcases List.mem_cons.mp hA2 with rfl | hA3
              · simp at h1
              · exact absurd hA3 (List.not_mem_nil e)
          · obtain ⟨c, _, rfl⟩ := List.mem_map.mp hB
            exact absurd h1 (ne_of_pre _ _ "chunks/" (chunkRecName_pre _) (by decide))
        · obtain ⟨cl, _, rfl⟩ := List.mem_map.mp hC
          exact absurd h1 (ne_of_pre _ _ "clusters/" (clusterRecName_pre _) (by decide))
      · rcases List.mem_cons.mp hD with rfl | hD2
        · rfl
        · exact absurd hD2 (List.not_mem_nil e)
    · obtain ⟨p, b, rfl⟩ := mem_rawSeg d e hE
      exact absurd h1 (ne_of_pre _ _ "raw/" (rawName_pre p) (by decide))

theorem zw_chunk (d : Docpack) (c : Chunk) (hc : c ∈ d.chunks)
    (hn : (d.chunks.map Chunk.chunk_id).Nodup)
    (hb : ∀ x ∈ d.chunks, 0 ≤ x.chunk_id ∧ x.chunk_id < 10000) :
    zread (docpackWrite d) (chunkRecName c.chunk_id)
      = some (.json (chunkToJson c)) := by
  apply zread_unique
  · exact List.mem_append.mpr (Or.inl (List.mem_append.mpr (Or.inl
      (List.mem_append.mpr (Or.inl (List.mem_append.mpr (Or.inr
        (List.mem_map.mpr ⟨c, hc, rfl⟩))))))))
  · intro e he h1
    unfold docpackWrite at he
    rcases List.mem_append.mp he with h4 | hE
    · rcases List.mem_append.mp h4 with h3 | hD
      · rcases List.mem_append.mp h3 with h2 | hC
        · rcases List.mem_append.mp h2 with hA | hB
          · rcases List.mem_cons.mp hA with rfl | hA2
            · exact absurd h1.symm (ne_of_pre _ _ "chunks/" (chunkRecName_pre _)
                (show pyStartsWith "manifest.json" "chunks/" = false by decide))
            · rcases List.mem_cons.mp hA2 with rfl | hA3
              · exact absurd h1.symm (ne_of_pre _ _ "chunks/" (chunkRecName_pre _)
                  (show pyStartsWith "intent.yaml" "chunks/" = false by decide))
              · exact absurd hA3 (List.not_mem_nil e)
          · obtain ⟨c2, hc2, rfl⟩ := List.mem_map.mp hB
            have hid : c2.chunk_id = c.chunk_id := by
              by_contra hne
              exact chunkRecName_inj c2.chunk_id c.chunk_id (hb c2 hc2).1 (hb c2 hc2).2
                (hb c hc).1 (hb c hc).2 hne h1
            have hceq : c2 = c := List.inj_on_of_nodup_map hn hc2 hc hid
            rw [hceq]
        · obtain ⟨cl, _, rfl⟩ := List.mem_map.mp hC
          exact absurd h1.symm
            (ne_of_pre _ _ "chunks/" (chunkRecName_pre _) (clusterRecName_not_chunks _))
      · rcases List.mem_cons.mp hD with rfl | hD2
        · exact absurd h1.symm (ne_of_pre _ _ "chunks/" (chunkRecName_pre _)
            (show pyStartsWith "project_summary.json" "chunks/" = false by decide))
        · exact absurd hD2 (List.not_mem_nil e)
    · obtain ⟨p, b, rfl⟩ := mem_rawSeg d e hE
      exact absurd h1.symm
        (ne_of_pre _ _ "chunks/" (chunkRecName_pre _) (rawName_not_chunks p))

theorem zw_cluster (d : Docpack) (cl : Cluster) (hc : cl ∈ d.clusters)
    (hn : (d.clusters.map Cluster.cluster_id).Nodup)
    (hb : ∀ x ∈ d.clusters, 0 ≤ x.cluster_id ∧ x.cluster_id < 100) :
    zread (docpackWrite d) (clusterRecName cl.cluster_id)
      = some (.json (clusterToJson cl)) := by
  apply zread_unique
  · exact List.mem_append.mpr (Or.inl (List.mem_append.mpr (Or.inl
      (List.mem_append.mpr (Or.inr (List.mem_map.mpr ⟨cl, hc, rfl⟩))))))
  · intro e he h1
    unfold docpackWrite at he
    rcases List.mem_append.mp he with h4 | hE
    · rcases List.mem_append.mp h4 with h3 | hD
      · rcases List.mem_append.mp h3 with h2 | hC
        · rcases List.mem_append.mp h2 with hA | hB
          · rcases List.mem_cons.mp hA with rfl | hA2
            · exact absurd h1.symm (ne_of_pre _ _ "clusters/" (clusterRecName_pre _)
                (show pyStartsWith "manifest.json" "clusters/" = false by decide))
            · rcases List.mem_cons.mp hA2 with rfl | hA3
              · exact absurd h1.symm (ne_of_pre _ _ "clusters/" (clusterRecName_pre _)
                  (show pyStartsWith "intent.yaml" "clusters/" = false by decide))
              · exact absurd hA3 (List.not_mem_nil e)
          · obtain ⟨c2, _, rfl⟩ := List.mem_map.mp hB
            exact absurd h1.symm
              (ne_of_pre _ _ "clusters/" (clusterRecName_pre _) (chunkRecName_not_clusters _))
        · obtain ⟨cl2, hc2, rfl⟩ := List.mem_map.mp hC
          have hid : cl2.cluster_id = cl.cluster_id := by
            by_contra hne
            exact clusterRecName_inj cl2.cluster_id cl.cluster_id (hb cl2 hc2).1
              (hb cl2 hc2).2 (hb cl hc).1 (hb cl hc).2 hne h1
          have hceq : cl2 = cl := List.inj_on_of_nodup_map hn hc2 hc hid
          rw [hceq]
      · rcases List.mem_cons.mp hD with rfl | hD2
        · exact absurd h1.symm (ne_of_pre _ _ "clusters/" (clusterRecName_pre _)
            (show pyStartsWith "project_summary.json" "clusters/" = false by decide))
        · exact absurd hD2 (List.not_mem_nil e)
    · obtain ⟨p, b, rfl⟩ := mem_rawSeg d e hE
      exact absurd h1.symm
        (ne_of_pre _ _ "clusters/" (clusterRecName_pre _) (rawName_not_clusters p))

/-! ### Evaluating the parse loops of the reader -/

theorem mapM_chunkNames (entries : List (String × ZEntry)) : ∀ l : List Chunk,
    (∀ c ∈ l, zread entries (chunkRecName c.chunk_id) = some (.json (chunkToJson c))) →
    (l.map (fun c => chunkRecName c.chunk_id)).mapM
      (fun n => zreadJson entries n >>= chunkFromJson) = .ok l
  | [], _ => rfl
  | c :: t, h => by
    have h1 : zreadJson entries (chunkRecName c.chunk_id) = .ok (chunkToJson c) := by
      unfold zreadJson
      rw [h c (List.mem_cons_self c t)]
    rw [List.map_cons, List.mapM_cons,
      mapM_chunkNames entries t (fun x hx => h x (List.mem_cons_of_mem _ hx))]
    simp [h1, chunk_rt, exbind_ok, dpPure]

theorem mapM_clusterNames (entries : List (String × ZEntry)) : ∀ l : List Cluster,
    (∀ cl ∈ l, zread entries (clusterRecName cl.cluster_id)
      = some (.json (clusterToJson cl))) →
    (∀ cl ∈ l, cl.summary = none ∨ ∃ kvs, cl.summary = some (Json.obj kvs)) →
    (l.map (fun cl => clusterRecName cl.cluster_id)).mapM
      (fun n => zreadJson entries n >>= clusterFromJson) = .ok l
  | [], _, _ => rfl
  | cl :: t, h, hs => by
    have h1 : zreadJson entries (clusterRecName cl.cluster_id) = .ok (clusterToJson cl) := by
      unfold zreadJson
      rw [h cl (List.mem_cons_self cl t)]
    rw [List.map_cons, List.mapM_cons,
      mapM_clusterNames entries t (fun x hx => h x (List.mem_cons_of_mem _ hx))
        (fun x hx => hs x (List.mem_cons_of_mem _ hx))]
    simp [h1, cluster_rt cl (hs cl (List.mem_cons_self cl t)), exbind_ok, dpPure]

/-! ### Read of write -/

/-- Reading back a written archive, for well-formed in-memory docpacks:
ids unique and within the zero-padded widths, cluster summaries and the two
top-level dicts actual JSON objects.  The chunk and cluster lists come back
sorted by record name; `raw_files` is `none` when the manifest flag is
false. -/
theorem docpackWrite_read (d : Docpack)
    (hcn : (d.chunks.map Chunk.chunk_id).Nodup)
    (hcb : ∀ x ∈ d.chunks, 0 ≤ x.chunk_id ∧ x.chunk_id < 10000)
    (hln : (d.clusters.map Cluster.cluster_id).Nodup)
    (hlb : ∀ x ∈ d.clusters, 0 ≤ x.cluster_id ∧ x.cluster_id < 100)
    (hsm : ∀ cl ∈ d.clusters, cl.summary = none ∨ ∃ kvs, cl.summary = some (Json.obj kvs))
    (hint : ∃ kvs, d.intent_spec = Json.obj kvs)
    (hpj : ∃ kvs, d.project_summary = Json.obj kvs) :
    ∃ rw2, docpackRead (docpackWrite d) = .ok
        ⟨d.manifest, d.intent_spec, List.insertionSort chunkNameLe d.chunks,
          List.insertionSort clusterNameLe d.clusters, d.project_summary, rw2⟩ ∧
      (d.manifest.includes_raw_files = false → rw2 = none) := by
  have hmj : zreadJson (docpackWrite d) "manifest.json" = .ok (manifestToJson d.manifest) := by
    unfold zreadJson
    rw [zw_manifest d]
  have hiy : zreadYaml (docpackWrite d) "intent.yaml" = .ok d.intent_spec := by
    unfold zreadYaml
    rw [zw_intent d]
  have hio : asObj d.intent_spec = .ok d.intent_spec := by
    obtain ⟨kvs, hk⟩ := hint
    rw [hk]
    rfl
  have hpjr : zreadJson (docpackWrite d) "project_summary.json" = .ok d.project_summary := by
    unfold zreadJson
    rw [zw_project d]
  have hpo : asObj d.project_summary = .ok d.project_summary := by
    obtain ⟨kvs, hk⟩ := hpj
    rw [hk]
    rfl
  have hchunks : (List.insertionSort StrLe (namesWith (docpackWrite d) "chunks/")).mapM
      (fun n => zreadJson (docpackWrite d) n >>= chunkFromJson)
      = .ok (List.insertionSort chunkNameLe d.chunks) := by
    rw [namesWith_write_chunks d, insertionSort_map_chunk]
    apply mapM_chunkNames
    intro c hc
    have hc2 : c ∈ d.chunks := (List.perm_insertionSort chunkNameLe d.chunks).mem_iff.mp hc
    exact zw_chunk d c hc2 hcn hcb
  have hclusters : (List.insertionSort StrLe (namesWith (docpackWrite d) "clusters/")).mapM
      (fun n => zreadJson (docpackWrite d) n >>= clusterFromJson)
      = .ok (List.insertionSort clusterNameLe d.clusters) := by
    rw [namesWith_write_clusters d, insertionSort_map_cluster]
    apply mapM_clusterNames
    · intro cl hc
      have hc2 : cl ∈ d.clusters :=
        (List.perm_insertionSort clusterNameLe d.clusters).mem_iff.mp hc
      exact zw_cluster d cl hc2 hln hlb
    · intro cl hc
      exact hsm cl ((List.perm_insertionSort clusterNameLe d.clusters).mem_iff.mp hc)
  by_cases hf : d.manifest.includes_raw_files
  · refine ⟨some (((docpackWrite d).filter (fun e => pyStartsWith e.1 "raw/")).map
      (fun e => (pyDrop e.1 4, rawValue (docpackWrite d) e.1))), ?_, ?_⟩
    · unfold docpackRead
      simp only [hmj, manifest_rt, hiy, hio, hchunks, hclusters, hpjr, hpo,
        exbind_ok, dpPure, hf, if_true]
    · intro hc
      rw [hf] at hc
      exact absurd hc (by decide)
  · refine ⟨none, ?_, fun _ => rfl⟩
    unfold docpackRead
    have hf2 : d.manifest.includes_raw_files = false := by
      cases hde : d.manifest.includes_raw_files
      · rfl
      · exact absurd hde hf
    simp only [hmj, manifest_rt, hiy, hio, hchunks, hclusters, hpjr, hpo,
      exbind_ok, dpPure, hf2, Bool.false_eq_true, if_false]

theorem insertionSort_chunk_pairwise (l : List Chunk)
    (hn : (l.map Chunk.chunk_id).Nodup)
    (hb : ∀ x ∈ l, 0 ≤ x.chunk_id ∧ x.chunk_id < 10000) :
    List.Pairwise (fun a b : Chunk => a.chunk_id < b.chunk_id)
      (List.insertionSort chunkNameLe l) := by
  haveI : IsTotal Chunk chunkNameLe := ⟨fun a b => strLe_total _ _⟩
  haveI : IsTrans Chunk chunkNameLe := ⟨fun a b c ha hb2 => strLe_trans _ _ _ ha hb2⟩
  have hs : List.Pairwise chunkNameLe (List.insertionSort chunkNameLe l) :=
    List.sorted_insertionSort chunkNameLe l
  have hperm := List.perm_insertionSort chunkNameLe l
  have hnd2 : ((List.insertionSort chunkNameLe l).map Chunk.chunk_id).Nodup :=
    ((hperm.map Chunk.chunk_id).nodup_iff).mpr hn
  have hne : List.Pairwise (fun a b : Chunk => a.chunk_id ≠ b.chunk_id)
      (List.insertionSort chunkNameLe l) := List.pairwise_map.mp hnd2
  have hbs : ∀ x ∈ List.insertionSort chunkNameLe l, 0 ≤ x.chunk_id ∧ x.chunk_id < 10000 :=
    fun x hx => hb x (hperm.mem_iff.mp hx)
  refine List.Pairwise.imp_of_mem ?_ (hs.and hne)
  intro a b ha hb2 hr
  by_contra hlt
  have hba : b.chunk_id < a.chunk_id := by
    rcases lt_or_eq_of_le (not_lt.mp hlt) with h | h
    · exact h
    · exact absurd h.symm hr.2
  have hlt2 : strLtB (chunkRecName b.chunk_id) (chunkRecName a.chunk_id) = true :=
    (chunkRecName_lt _ _ (hbs b hb2).1 (hbs b hb2).2 (hbs a ha).1 (hbs a ha).2).mpr hba
  have hcon : strLtB (chunkRecName b.chunk_id) (chunkRecName a.chunk_id) = false := hr.1
  rw [hcon] at hlt2
  exact absurd hlt2 (by decide)

theorem insertionSort_cluster_pairwise (l : List Cluster)
    (hn : (l.map Cluster.cluster_id).Nodup)
    (hb : ∀ x ∈ l, 0 ≤ x.cluster_id ∧ x.cluster_id < 100) :
    List.Pairwise (fun a b : Cluster => a.cluster_id < b.cluster_id)
      (List.insertionSort clusterNameLe l) := by
  haveI : IsTotal Cluster clusterNameLe := ⟨fun a b => strLe_total _ _⟩
  haveI : IsTrans Cluster clusterNameLe := ⟨fun a b c ha hb2 => strLe_trans _ _ _ ha hb2⟩
  have hs : List.Pairwise clusterNameLe (List.insertionSort clusterNameLe l) :=
    List.sorted_insertionSort clusterNameLe l
  have hperm := List.perm_insertionSort clusterNameLe l
  have hnd2 : ((List.insertionSort clusterNameLe l).map Cluster.cluster_id).Nodup :=
    ((hperm.map Cluster.cluster_id).nodup_iff).mpr hn
  have hne : List.Pairwise (fun a b : Cluster => a.cluster_id ≠ b.cluster_id)
      (List.insertionSort clusterNameLe l) := List.pairwise_map.mp hnd2
  have hbs : ∀ x ∈ List.insertionSort clusterNameLe l, 0 ≤ x.cluster_id ∧ x.cluster_id < 100 :=
    fun x hx => hb x (hperm.mem_iff.mp hx)
  refine List.Pairwise.imp_of_mem ?_ (hs.and hne)
  intro a b ha hb2 hr
  by_contra hlt
  have hba : b.cluster_id < a.cluster_id := by
    rcases lt_or_eq_of_le (not_lt.mp hlt) with h | h
    · exact h
    · exact absurd h.symm hr.2
  have hlt2 : strLtB (clusterRecName b.cluster_id) (clusterRecName a.cluster_id) = true :=
    (clusterRecName_lt _ _ (hbs b hb2).1 (hbs b hb2).2 (hbs a ha).1 (hbs a ha).2).mpr hba
  have hcon : strLtB (clusterRecName b.cluster_id) (clusterRecName a.cluster_id) = false := hr.1
  rw [hcon] at hlt2
  exact absurd hlt2 (by decide)

/-- Two permuted lists that are both strictly increasing on an integer key
are equal. -/
theorem eq_of_perm_of_pairwise_lt {α : Type} (key : α → Int) :
    ∀ (l1 l2 : List α), l1.Perm l2 →
      List.Pairwise (fun a b => key a < key b) l1 →
      List.Pairwise (fun a b => key a < key b) l2 → l1 = l2
  | [], l2, hp, _, _ => hp.nil_eq
  | a :: t1, l2, hp, h1, h2 => by
    cases l2 with
    | nil =>
      have hl := hp.length_eq
      simp at hl
    | cons b t2 =>
      have hab : a = b := by
        by_contra hne
        have hamem : a ∈ b :: t2 := hp.mem_iff.mp (List.mem_cons_self a t1)
        have ha2 : a ∈ t2 := by
          rcases List.mem_cons.mp hamem with he | hm
          · exact absurd he hne
          · exact hm
        have hbmem : b ∈ a :: t1 := hp.mem_iff.mpr (List.mem_cons_self b t2)
        have hb1 : b ∈ t1 := by
          rcases List.mem_cons.mp hbmem with he | hm
          · exact absurd he.symm hne
          · exact hm
        have hlt1 : key a < key b := (List.pairwise_cons.mp h1).1 b hb1
        have hlt2 : key b < key a := (List.pairwise_cons.mp h2).1 a ha2
        omega
      subst hab
      have ht : t1.Perm t2 := hp.cons_inv
      rw [eq_of_perm_of_pairwise_lt key t1 t2 ht (List.pairwise_cons.mp h1).2
        (List.pairwise_cons.mp h2).2]

/-- **C2** (corrected).  Writing a well-formed docpack and reading it back
reproduces the manifest, the intent spec, the chunk list, the cluster list
and the project summary exactly; but when the manifest's
`includes_raw_files` flag is false the reloaded `raw_files` is `None`
(absent), not an empty map.  Well-formedness: chunk and cluster lists in
strictly increasing id order with ids inside the zero-padded name widths
(`0 ≤ chunk_id < 10000`, `0 ≤ cluster_id < 100`), cluster summaries and
the two top-level documents JSON objects — all invariants of the pipeline
that produced the docpack. -/
theorem docpack_roundtrip_spec (d : Docpack)
    (hc : List.Pairwise (fun a b : Chunk => a.chunk_id < b.chunk_id) d.chunks)
    (hcb : ∀ x ∈ d.chunks, 0 ≤ x.chunk_id ∧ x.chunk_id < 10000)
    (hl : List.Pairwise (fun a b : Cluster => a.cluster_id < b.cluster_id) d.clusters)
    (hlb : ∀ x ∈ d.clusters, 0 ≤ x.cluster_id ∧ x.cluster_id < 100)
    (hsm : ∀ cl ∈ d.clusters, cl.summary = none ∨ ∃ kvs, cl.summary = some (Json.obj kvs))
    (hint : ∃ kvs, d.intent_spec = Json.obj kvs)
    (hpj : ∃ kvs, d.project_summary = Json.obj kvs) :
    ∃ d2, docpackRead (docpackWrite d) = .ok d2 ∧
      d2.manifest = d.manifest ∧ d2.intent_spec = d.intent_spec ∧
      d2.chunks = d.chunks ∧ d2.clusters = d.clusters ∧
      d2.project_summary = d.project_summary ∧
      (d.manifest.includes_raw_files = false → d2.raw_files = none) := by
  have hcn : (d.chunks.map Chunk.chunk_id).Nodup :=
    List.pairwise_map.mpr (hc.imp (fun h => by omega))
  have hln : (d.clusters.map Cluster.cluster_id).Nodup :=
    List.pairwise_map.mpr (hl.imp (fun h => by omega))
  obtain ⟨rw2, hread, hraw⟩ := docpackWrite_read d hcn hcb hln hlb hsm hint hpj
  have hceq : List.insertionSort chunkNameLe d.chunks = d.chunks :=
    eq_of_perm_of_pairwise_lt Chunk.chunk_id _ _
      (List.perm_insertionSort chunkNameLe d.chunks)
      (insertionSort_chunk_pairwise d.chunks hcn hcb) hc
  have hleq : List.insertionSort clusterNameLe d.clusters = d.clusters :=
    eq_of_perm_of_pairwise_lt Cluster.cluster_id _ _
      (List.perm_insertionSort clusterNameLe d.clusters)
      (insertionSort_cluster_pairwise d.clusters hln hlb) hl
  rw [hceq, hleq] at hread
  exact ⟨_, hread, rfl, rfl, rfl, rfl, rfl, hraw⟩

/-- **C2, counterexample to the raw-file conjunct.**  A docpack written
with `includes_raw_files = False` reads back with `raw_files = None`
(docpack.py line 130: `raw_files` stays `None` when the flag is false),
not an empty raw-file map as claimed. -/
theorem docpack_roundtrip_cex :
    rtCexDocpack.manifest.includes_raw_files = false ∧
    ∃ d2, docpackRead (docpackWrite rtCexDocpack) = .ok d2 ∧
      d2.raw_files = none ∧ d2.raw_files ≠ some [] := by
  refine ⟨rfl, rtCexDocpack, rfl, rfl, by decide⟩

/-- **C3** (corrected).  For ids inside the zero-padded widths
(`0 ≤ chunk_id < 10000`, `0 ≤ cluster_id < 100`) and unique, record-name
order equals numeric id order, and reading a written archive reconstructs
the chunk and cluster lists as permutations of the written ones in strictly
increasing id order.  Outside those widths the property fails
(`docpack_order_cex`). -/
theorem docpack_order_spec (d : Docpack)
    (hcn : (d.chunks.map Chunk.chunk_id).Nodup)
    (hcb : ∀ x ∈ d.chunks, 0 ≤ x.chunk_id ∧ x.chunk_id < 10000)
    (hln : (d.clusters.map Cluster.cluster_id).Nodup)
    (hlb : ∀ x ∈ d.clusters, 0 ≤ x.cluster_id ∧ x.cluster_id < 100)
    (hsm : ∀ cl ∈ d.clusters, cl.summary = none ∨ ∃ kvs, cl.summary = some (Json.obj kvs))
    (hint : ∃ kvs, d.intent_spec = Json.obj kvs)
    (hpj : ∃ kvs, d.project_summary = Json.obj kvs) :
    (∀ c1 ∈ d.chunks, ∀ c2 ∈ d.chunks,
      (strLtB (chunkRecName c1.chunk_id) (chunkRecName c2.chunk_id) = true
        ↔ c1.chunk_id < c2.chunk_id)) ∧
    (∀ l1 ∈ d.clusters, ∀ l2 ∈ d.clusters,
      (strLtB (clusterRecName l1.cluster_id) (clusterRecName l2.cluster_id) = true
        ↔ l1.cluster_id < l2.cluster_id)) ∧
    ∃ d2, docpackRead (docpackWrite d) = .ok d2 ∧
      d2.chunks.Perm d.chunks ∧
      List.Pairwise (fun a b : Chunk => a.chunk_id < b.chunk_id) d2.chunks ∧
      d2.clusters.Perm d.clusters ∧
      List.Pairwise (fun a b : Cluster => a.cluster_id < b.cluster_id) d2.clusters := by
  refine ⟨fun c1 h1 c2 h2 =>
      chunkRecName_lt _ _ (hcb c1 h1).1 (hcb c1 h1).2 (hcb c2 h2).1 (hcb c2 h2).2,
    fun l1 h1 l2 h2 =>
      clusterRecName_lt _ _ (hlb l1 h1).1 (hlb l1 h1).2 (hlb l2 h2).1 (hlb l2 h2).2, ?_⟩
  obtain ⟨rw2, hread, _⟩ := docpackWrite_read d hcn hcb hln hlb hsm hint hpj
  exact ⟨_, hread, List.perm_insertionSort chunkNameLe d.chunks,
    insertionSort_chunk_pairwise d.chunks hcn hcb,
    List.perm_insertionSort clusterNameLe d.clusters,
    insertionSort_cluster_pairwise d.clusters hln hlb⟩

/-- **C3, counterexample to the unconditional claim.**  A chunk id of
10000 overflows the 4-digit padding: `chunks/chunk_10000.json` sorts
before `chunks/chunk_9999.json`, so a docpack written with chunk ids
`[9999, 10000]` reads back in decreasing id order `[10000, 9999]`. -/
theorem docpack_order_cex :
    (9999 : Int) < 10000 ∧
    strLtB (chunkRecName 10000) (chunkRecName 9999) = true ∧
    ordCexDocpack.chunks.map Chunk.chunk_id = [9999, 10000] ∧
    (match docpackRead (docpackWrite ordCexDocpack) with
      | .ok d2 => d2.chunks.map Chunk.chunk_id
      | .error _ => []) = [10000, 9999] := by
  refine ⟨by decide, by decide, rfl, ?_⟩
  rfl

/-! ### Inverting a successful read, and stability under unscanned records -/

theorem exbind_err {α β : Type} (e : DpErr) (f : α → Except DpErr β) :
    ((Except.error e : Except DpErr α) >>= f) = .error e := rfl

theorem mapM_congr_dp {α β : Type} : ∀ (l : List α) (f g : α → Except DpErr β),
    (∀ x ∈ l, f x = g x) → l.mapM f = l.mapM g
  | [], _, _, _ => rfl
  | a :: t, f, g, h => by
    rw [List.mapM_cons, List.mapM_cons, h a (List.mem_cons_self a t),
      mapM_congr_dp t f g (fun x hx => h x (List.mem_cons_of_mem _ hx))]

theorem isPrefixOf_ex : ∀ (p l : List Char), p.isPrefixOf l = true → ∃ t, l = p ++ t
  | [], l, _ => ⟨l, rfl⟩
  | a :: p, [], h => by simp [List.isPrefixOf] at h
  | a :: p, b :: l, h => by
    simp only [List.isPrefixOf, Bool.and_eq_true] at h
    obtain ⟨h1, h2⟩ := h
    have hab : a = b := by simpa using h1
    obtain ⟨t, ht⟩ := isPrefixOf_ex p l h2
    exact ⟨t, by rw [ht, ← hab]; rfl⟩

/-- A name under `raw/` collides with no name the reader looks up. -/
theorem not_pre_of_raw (n : String) (h : pyStartsWith n "raw/" = true) :
    pyStartsWith n "chunks/" = false ∧ pyStartsWith n "clusters/" = false ∧
    n ≠ "manifest.json" ∧ n ≠ "intent.yaml" ∧ n ≠ "project_summary.json" := by
  obtain ⟨t, ht⟩ := isPrefixOf_ex _ _ h
  refine ⟨?_, ?_, ?_, ?_, ?_⟩
  · unfold pyStartsWith
    rw [ht]
    rfl
  · unfold pyStartsWith
    rw [ht]
    rfl
  · intro he
    rw [he] at h
    exact absurd h (by decide)
  · intro he
    rw [he] at h
    exact absurd h (by decide)
  · intro he
    rw [he] at h
    exact absurd h (by decide)

theorem zread_stable (entries junk : List (String × ZEntry)) (n : String)
    (hj : ∀ e ∈ junk, e.1 ≠ n) :
    zread (entries ++ junk) n = zread entries n := by
  unfold zread
  rw [List.reverse_append, List.find?_append,
    List.find?_eq_none.mpr (fun e he => by simp [hj e (List.mem_reverse.mp he)])]
  rfl

theorem zreadJson_stable (entries junk : List (String × ZEntry)) (n : String)
    (hj : ∀ e ∈ junk, e.1 ≠ n) :
    zreadJson (entries ++ junk) n = zreadJson entries n := by
  unfold zreadJson
  rw [zread_stable entries junk n hj]

theorem zreadYaml_stable (entries junk : List (String × ZEntry)) (n : String)
    (hj : ∀ e ∈ junk, e.1 ≠ n) :
    zreadYaml (entries ++ junk) n = zreadYaml entries n := by
  unfold zreadYaml
  rw [zread_stable entries junk n hj]

theorem namesWith_nil_of (l : List (String × ZEntry)) (p : String)
    (h : ∀ e ∈ l, pyStartsWith e.1 p = false) : namesWith l p = [] := by
  unfold namesWith
  apply List.filter_eq_nil_iff.mpr
  intro n hn
  obtain ⟨e, he, rfl⟩ := List.mem_map.mp hn
  simp [h e he]

/-- What a successful read says about `raw_files`, and stability of the
whole result under appending `raw/` records when the flag is false. -/
theorem docpackRead_inv (entries : List (String × ZEntry)) (d : Docpack)
    (h : docpackRead entries = .ok d) :
    d.raw_files = (if d.manifest.includes_raw_files then
      some ((entries.filter (fun e => pyStartsWith e.1 "raw/")).map
        (fun e => (pyDrop e.1 4, rawValue entries e.1)))
    else none) ∧
    (d.manifest.includes_raw_files = false →
      ∀ junk : List (String × ZEntry), (∀ e ∈ junk, pyStartsWith e.1 "raw/" = true) →
        docpackRead (entries ++ junk) = .ok d) := by
  unfold docpackRead at h
  cases hm : zreadJson entries "manifest.json" with
  | error e =>
    rw [hm, exbind_err] at h
    exact Except.noConfusion h
  | ok mj =>
  simp only [hm, exbind_ok] at h
  cases hman : manifestFromJson mj with
  | error e =>
    rw [hman, exbind_err] at h
    exact Except.noConfusion h
  | ok man =>
  simp only [hman, exbind_ok] at h
  cases hiy : zreadYaml entries "intent.yaml" with
  | error e =>
    rw [hiy, exbind_err] at h
    exact Except.noConfusion h
  | ok iy =>
  simp only [hiy, exbind_ok] at h
  cases hio : asObj iy with
  | error e =>
    rw [hio, exbind_err] at h
    exact Except.noConfusion h
  | ok ispec =>
  simp only [hio, exbind_ok] at h
  cases hch : (List.insertionSort StrLe (namesWith entries "chunks/")).mapM
      (fun n => zreadJson entries n >>= chunkFromJson) with
  | error e =>
    rw [hch, exbind_err] at h
    exact Except.noConfusion h
  | ok chunks =>
  simp only [hch, exbind_ok] at h
  cases hcl : (List.insertionSort StrLe (namesWith entries "clusters/")).mapM
      (fun n => zreadJson entries n >>= clusterFromJson) with
  | error e =>
    rw [hcl, exbind_err] at h
    exact Except.noConfusion h
  | ok clusters =>
  simp only [hcl, exbind_ok] at h
  cases hpj : zreadJson entries "project_summary.json" with
  | error e =>
    rw [hpj, exbind_err] at h
    exact Except.noConfusion h
  | ok pj =>
  simp only [hpj, exbind_ok] at h
  cases hpo : asObj pj with
  | error e =>
    rw [hpo, exbind_err] at h
    exact Except.noConfusion h
  | ok psum =>
  simp only [hpo, exbind_ok, dpPure] at h
  have hd := Except.ok.inj h
  subst hd
  constructor
  · rfl
  · intro hf junk hjr
    have hf2 : man.includes_raw_files = false := hf
    have hj1 : ∀ e ∈ junk, e.1 ≠ "manifest.json" :=
      fun e he => (not_pre_of_raw e.1 (hjr e he)).2.2.1
    have hj2 : ∀ e ∈ junk, e.1 ≠ "intent.yaml" :=
      fun e he => (not_pre_of_raw e.1 (hjr e he)).2.2.2.1
    have hj3 : ∀ e ∈ junk, e.1 ≠ "project_summary.json" :=
      fun e he => (not_pre_of_raw e.1 (hjr e he)).2.2.2.2
    have hs1 : zreadJson (entries ++ junk) "manifest.json" = .ok mj := by
      rw [zreadJson_stable entries junk _ hj1, hm]
    have hs2 : zreadYaml (entries ++ junk) "intent.yaml" = .ok iy := by
      rw [zreadYaml_stable entries junk _ hj2, hiy]
    have hs3 : zreadJson (entries ++ junk) "project_summary.json" = .ok pj := by
      rw [zreadJson_stable entries junk _ hj3, hpj]
    have hnw1 : namesWith (entries ++ junk) "chunks/" = namesWith entries "chunks/" := by
      rw [namesWith_append, namesWith_nil_of junk "chunks/"
        (fun e he => (not_pre_of_raw e.1 (hjr e he)).1), List.append_nil]
    have hnw2 : namesWith (entries ++ junk) "clusters/" = namesWith entries "clusters/" := by
      rw [namesWith_append, namesWith_nil_of junk "clusters/"
        (fun e he => (not_pre_of_raw e.1 (hjr e he)).2.1), List.append_nil]
    have hch2 : (List.insertionSort StrLe (namesWith (entries ++ junk) "chunks/")).mapM
        (fun n => zreadJson (entries ++ junk) n >>= chunkFromJson) = .ok chunks := by
      rw [hnw1, mapM_congr_dp _ _ (fun n => zreadJson entries n >>= chunkFromJson) ?_, hch]
      intro n hn
      have hmem : n ∈ namesWith entries "chunks/" :=
        (List.perm_insertionSort StrLe (namesWith entries "chunks/")).mem_iff.mp hn
      have hnp : pyStartsWith n "chunks/" = true := by
        unfold namesWith at hmem
        exact (List.mem_filter.mp hmem).2
      have hne2 : ∀ e ∈ junk, e.1 ≠ n := by
        intro e he heq
        have hfa := (not_pre_of_raw e.1 (hjr e he)).1
        rw [heq, hnp] at hfa
        exact absurd hfa (by decide)
      rw [zreadJson_stable entries junk n hne2]
    have hcl2 : (List.insertionSort StrLe (namesWith (entries ++ junk) "clusters/")).mapM
        (fun n => zreadJson (entries ++ junk) n >>= clusterFromJson) = .ok clusters := by
      rw [hnw2, mapM_congr_dp _ _ (fun n => zreadJson entries n >>= clusterFromJson) ?_, hcl]
      intro n hn
      have hmem : n ∈ namesWith entries "clusters/" :=
        (List.perm_insertionSort StrLe (namesWith entries "clusters/")).mem_iff.mp hn
      have hnp : pyStartsWith n "clusters/" = true := by
        unfold namesWith at hmem
        exact (List.mem_filter.mp hmem).2
      have hne2 : ∀ e ∈ junk, e.1 ≠ n := by
        intro e he heq
        have hfa := (not_pre_of_raw e.1 (hjr e he)).2.1
        rw [heq, hnp] at hfa
        exact absurd hfa (by decide)
      rw [zreadJson_stable entries junk n hne2]
    unfold docpackRead
    simp only [hs1, hman, hs2, hio, hch2, hcl2, hs3, hpo, exbind_ok, dpPure, hf2,
      Bool.false_eq_true, if_false]

/-- **C10** (confirmed).  For a successfully read container, `raw_files`
is `None` exactly when the manifest flag is false; when the flag is true
it is the map of the `raw/` records with the prefix stripped (empty when
there are none); and when the flag is false the `raw/` namespace is never
consulted: appending arbitrary `raw/` records to the container leaves the
whole result unchanged. -/
theorem docpack_raw_files_spec (entries : List (String × ZEntry)) (d : Docpack)
    (h : docpackRead entries = .ok d) :
    (d.raw_files = none ↔ d.manifest.includes_raw_files = false) ∧
    (d.manifest.includes_raw_files = true →
      ∃ m, d.raw_files = some m ∧
        m.map Prod.fst = (namesWith entries "raw/").map (fun n => pyDrop n 4) ∧
        (namesWith entries "raw/" = [] → m = [])) ∧
    (d.manifest.includes_raw_files = false →
      ∀ junk : List (String × ZEntry), (∀ e ∈ junk, pyStartsWith e.1 "raw/" = true) →
        docpackRead (entries ++ junk) = .ok d) := by
  obtain ⟨hraw, hjunk⟩ := docpackRead_inv entries d h
  refine ⟨?_, ?_, hjunk⟩
  · cases hf : d.manifest.includes_raw_files
    · rw [hf] at hraw
      simp at hraw
      simp [hraw, hf]
    · rw [hf] at hraw
      simp at hraw
      simp [hraw, hf]
  · intro hf
    rw [hf] at hraw
    simp at hraw
    refine ⟨_, hraw, ?_, ?_⟩
    · simp only [namesWith, List.filter_map, List.map_map]
      rfl
    · intro hemp
      have h2 : entries.filter (fun e => pyStartsWith e.1 "raw/") = [] := by
        apply List.filter_eq_nil_iff.mpr
        intro e he hp2
        have hmem : e.1 ∈ namesWith entries "raw/" := by
          unfold namesWith
          exact List.mem_filter.mpr ⟨List.mem_map.mpr ⟨e, he, rfl⟩, hp2⟩
        rw [hemp] at hmem
        exact absurd hmem (List.not_mem_nil _)
      rw [h2]
      rfl

theorem docpack_raw_files_spec_witness :
    docpackRead rawWitEntries = .ok rawWitDocpack ∧
    rawWitDocpack.raw_files = some [("a.txt", "hello")] ∧
    (rawWitDocpack.raw_files = none ↔ rawWitDocpack.manifest.includes_raw_files = false) :=
  ⟨rfl, rfl, (docpack_raw_files_spec rawWitEntries rawWitDocpack rfl).1⟩

theorem docpack_roundtrip_spec_witness :
    (∀ x ∈ rtWitDocpack.chunks, 0 ≤ x.chunk_id ∧ x.chunk_id < 10000) ∧
    ∃ d2, docpackRead (docpackWrite rtWitDocpack) = .ok d2 ∧
      d2.chunks = rtWitDocpack.chunks ∧ d2.clusters = rtWitDocpack.clusters ∧
      d2.raw_files = none := by
  refine ⟨by decide, ?_⟩
  obtain ⟨d2, hr, _, _, hc, hl, _, hraw⟩ := docpack_roundtrip_spec rtWitDocpack
    (by decide) (by decide) (by decide) (by decide)
    (fun cl hcl => by
      have hcl2 : cl ∈ [(⟨0, [0], some [], some (Json.obj [("t", Json.str "x")])⟩ : Cluster)] :=
        hcl
      rcases List.mem_cons.mp hcl2 with rfl | hx
      · exact Or.inr ⟨[("t", Json.str "x")], rfl⟩
      · exact absurd hx (List.not_mem_nil cl))
    ⟨_, rfl⟩ ⟨_, rfl⟩
  exact ⟨d2, hr, hc, hl, hraw rfl⟩

theorem docpack_order_spec_witness :
    (ordWitDocpack.chunks.map Chunk.chunk_id).Nodup ∧
    ∃ d2, docpackRead (docpackWrite ordWitDocpack) = .ok d2 ∧
      d2.chunks.Perm ordWitDocpack.chunks ∧
      List.Pairwise (fun a b : Chunk => a.chunk_id < b.chunk_id) d2.chunks := by
  refine ⟨by decide, ?_⟩
  obtain ⟨_, _, d2, hr, hp, hpw, _, _⟩ := docpack_order_spec ordWitDocpack
    (by decide) (by decide) (by decide) (by decide)
    (fun cl hcl => absurd hcl (List.not_mem_nil cl)) ⟨[], rfl⟩ ⟨[], rfl⟩
  exact ⟨d2, hr, hp, hpw⟩

end Doctown

